import Mathlib

/-!
# Tree-walking interpreter and type checker (typecheck_and_eval.go)

A shallow embedding of the AST, the evaluator (`eval`), the type
inferencer / checker (`infer`, `check`) and the pretty printer (`pretty`) of
`typecheck_and_eval.go`.

Modelling conventions

* Go's `int` is taken as the 64-bit two's-complement integer: values are
  `Int`s and every `+` and `*` of the source is followed by `wrapInt`.
* `map[string]Val` and `map[string]Type` are modelled by their lookup
  function `String → Option _`; `m[x] = v` is `update`.  The maps are the
  non-nil maps built with `make` in `runExp` / `runStmt`.
* The Go methods mutate the map they are given; here a statement returns the
  map it leaves behind.
* Some methods of the source call themselves on their own receiver and one
  loop never re-reads its guard, so the traversals are not total.  Every
  traversal therefore takes a fuel argument: one unit is spent per method
  call (and per loop pass) and `none` means that the fuel ran out.
  A result `some r` is what the Go method returns.
-/

/-! ## Values -/

/-- The tag of a value: `ValueInt = 0`, `ValueBool = 1`, `Undefined = 2`. -/
inductive Kind where
  | ValueInt
  | ValueBool
  | Undefined
  deriving DecidableEq, Repr

/-- The struct `Val`: a tag and the two payload fields. -/
structure Val where
  flag : Kind
  valI : Int
  valB : Bool
  deriving DecidableEq, Repr

/-- Reduction of an unbounded integer to the range of a 64-bit `int`. -/
def wrapInt (x : Int) : Int :=
  (x + 9223372036854775808) % 18446744073709551616 - 9223372036854775808

/-- The Go constructor `mkInt`: unset fields hold their zero value. -/
def mkInt (x : Int) : Val := { flag := Kind.ValueInt, valI := x, valB := false }

/-- The Go constructor `mkBool`. -/
def mkBool (x : Bool) : Val := { flag := Kind.ValueBool, valI := 0, valB := x }

/-- The Go constructor `mkUndefined`. -/
def mkUndefined : Val := { flag := Kind.Undefined, valI := 0, valB := false }

/-! ## Types -/

/-- The Go enumeration `Type` (`Type` is reserved in Lean, hence `Ty`). -/
inductive Ty where
  | TyIllTyped
  | TyInt
  | TyBool
  deriving DecidableEq, Repr

/-- The function `showType`. -/
def showType (t : Ty) : String :=
  match t with
  | Ty.TyInt => "Int"
  | Ty.TyBool => "Bool"
  | Ty.TyIllTyped => "Illtyped"

/-! ## Environments -/

/-- The map `ValState`, seen through its lookup. -/
abbrev ValState := String → Option Val

/-- The map `TyState`, seen through its lookup. -/
abbrev TyState := String → Option Ty

/-- The map assignment `m[x] = v`. -/
def update {α : Type} (m : String → Option α) (x : String) (v : α) : String → Option α :=
  fun y => if y = x then some v else m y

/-- The fresh map `make(map[string]Val)` of `runExp` and `runStmt`. -/
def emptyVal : ValState := fun _ => none

/-- The fresh map `make(map[string]Type)` of `runExp` and `runStmt`. -/
def emptyTy : TyState := fun _ => none

/-! ## Syntax -/

/-- The expression node types of the source. -/
inductive Exp where
  | Bool (x : Bool)
  | Num (x : Int)
  | Negate (e : Exp)
  | Mult (e0 e1 : Exp)
  | Plus (e0 e1 : Exp)
  | And (e0 e1 : Exp)
  | Or (e0 e1 : Exp)
  | Equals (e0 e1 : Exp)
  | Lesser (e0 e1 : Exp)
  | Group (e : Exp)
  | Var (x : String)
  deriving DecidableEq, Repr

/-- The statement node types that implement the interface `Stmt`
(`Print` has no `check` method and is not one of them). -/
inductive Stmt where
  | Seq (s0 s1 : Stmt)
  | Decl (lhs : String) (rhs : Exp)
  | IfThenElse (cond : Exp) (thenStmt elseStmt : Stmt)
  | While (cond : Exp) (stmt : Stmt)
  | Assign (lhs : String) (rhs : Exp)
  deriving DecidableEq, Repr

/-! ## Evaluator -/

/-- Modelled from the spec: the method `Var.eval` is missing from the source
(`Var` has only `pretty` and `infer`).  The spec says that a variable "looks up
its name in the value environment"; an absent name yields no result. -/
def Var.eval (x : String) (s : ValState) : Option Val := s x

/-- The methods `eval` of the expression nodes.  `Group.eval` calls `eval` on
its own receiver `g`, not on `g[0]`. -/
def Exp.eval : Nat → Exp → ValState → Option Val
  | 0, _, _ => none
  | _ + 1, .Bool x, _ => some (mkBool x)
  | _ + 1, .Num x, _ => some (mkInt x)
  | _ + 1, .Var x, s => Var.eval x s
  | n + 1, .Negate e, s => do
      let b ← Exp.eval n e s
      if b.flag = Kind.ValueBool then
        return mkBool (!b.valB)
      return mkUndefined
  | n + 1, .Equals e0 e1, s => do
      let b1 ← Exp.eval n e0 s
      let b2 ← Exp.eval n e1 s
      if b1.flag = Kind.ValueBool ∧ b2.flag = Kind.ValueBool then
        return mkBool (b1.valB == b2.valB)
      else if b1.flag = Kind.ValueInt ∧ b2.flag = Kind.ValueInt then
        return mkBool (decide (b1.valI < b2.valI))
      return mkUndefined
  | n + 1, .Lesser e0 e1, s => do
      let n1 ← Exp.eval n e0 s
      let n2 ← Exp.eval n e1 s
      if n1.flag = Kind.ValueInt ∧ n2.flag = Kind.ValueInt then
        return mkBool (decide (n1.valI < n2.valI))
      return mkUndefined
  | n + 1, .Mult e0 e1, s => do
      let n1 ← Exp.eval n e0 s
      let n2 ← Exp.eval n e1 s
      if n1.flag = Kind.ValueInt ∧ n2.flag = Kind.ValueInt then
        return mkInt (wrapInt (n1.valI * n2.valI))
      return mkUndefined
  | n + 1, .Plus e0 e1, s => do
      let n1 ← Exp.eval n e0 s
      let n2 ← Exp.eval n e1 s
      if n1.flag = Kind.ValueInt ∧ n2.flag = Kind.ValueInt then
        return mkInt (wrapInt (n1.valI + n2.valI))
      return mkUndefined
  | n + 1, .And e0 e1, s => do
      let b1 ← Exp.eval n e0 s
      let b2 ← Exp.eval n e1 s
      if b1.flag = Kind.ValueBool ∧ b1.valB = false then
        return mkBool false
      else if b1.flag = Kind.ValueBool ∧ b2.flag = Kind.ValueBool then
        return mkBool (b1.valB && b2.valB)
      return mkUndefined
  | n + 1, .Or e0 e1, s => do
      let b1 ← Exp.eval n e0 s
      let b2 ← Exp.eval n e1 s
      if b1.flag = Kind.ValueBool ∧ b1.valB = true then
        return mkBool true
      else if b1.flag = Kind.ValueBool ∧ b2.flag = Kind.ValueBool then
        return mkBool (b1.valB || b2.valB)
      return mkUndefined
  | n + 1, .Group e, s => do
      let v ← Exp.eval n (.Group e) s
      if v.flag = Kind.Undefined then
        return mkUndefined
      return v

/-- The `for` loop of `While.eval`: run the body, then leave when the guard
value `b` read before the loop is false.  `k` bounds the number of passes. -/
def whileLoop (body : ValState → Option ValState) (b : Bool) : Nat → ValState → Option ValState
  | 0, _ => none
  | k + 1, s =>
    match body s with
    | none => none
    | some s1 => if !b then some s1 else whileLoop body b k s1

/-- The methods `eval` of the statement nodes; the result is the map as the
method leaves it.  The `fmt.Printf` of the failure branches is not modelled. -/
def Stmt.eval : Nat → Stmt → ValState → Option ValState
  | 0, _, _ => none
  | n + 1, .Seq s0 s1, s => do
      let t ← Stmt.eval n s0 s
      Stmt.eval n s1 t
  | n + 1, .IfThenElse cond thenStmt elseStmt, s => do
      let v ← Exp.eval n cond s
      if v.flag = Kind.ValueBool then
        if v.valB then Stmt.eval n thenStmt s else Stmt.eval n elseStmt s
      else
        return s
  | n + 1, .While cond stmt, s => do
      let v ← Exp.eval n cond s
      if v.flag = Kind.ValueBool then
        whileLoop (Stmt.eval n stmt) v.valB n s
      else
        return s
  | n + 1, .Decl lhs rhs, s => do
      let v ← Exp.eval n rhs s
      return update s lhs v
  | n + 1, .Assign lhs rhs, s => do
      let v ← Exp.eval n rhs s
      return update s lhs v

/-! ## Type inferencer and checker -/

/-- The methods `infer` of the expression nodes.  `Group.infer` calls `infer`
on its own receiver. -/
def Exp.infer : Nat → Exp → TyState → Option Ty
  | 0, _, _ => none
  | _ + 1, .Var x, t =>
      match t x with
      | some ty => some ty
      | none => some Ty.TyIllTyped
  | _ + 1, .Bool _, _ => some Ty.TyBool
  | _ + 1, .Num _, _ => some Ty.TyInt
  | n + 1, .Negate e, t => do
      let t1 ← Exp.infer n e t
      if t1 = Ty.TyBool then
        return Ty.TyBool
      return Ty.TyIllTyped
  | n + 1, .Mult e0 e1, t => do
      let t1 ← Exp.infer n e0 t
      let t2 ← Exp.infer n e1 t
      if t1 = Ty.TyInt ∧ t2 = Ty.TyInt then
        return Ty.TyInt
      return Ty.TyIllTyped
  | n + 1, .Plus e0 e1, t => do
      let t1 ← Exp.infer n e0 t
      let t2 ← Exp.infer n e1 t
      if t1 = Ty.TyInt ∧ t2 = Ty.TyInt then
        return Ty.TyInt
      return Ty.TyIllTyped
  | n + 1, .And e0 e1, t => do
      let t1 ← Exp.infer n e0 t
      let t2 ← Exp.infer n e1 t
      if t1 ≠ Ty.TyBool then
        return Ty.TyIllTyped
      else if t2 ≠ Ty.TyBool then
        return Ty.TyIllTyped
      return Ty.TyBool
  | n + 1, .Or e0 e1, t => do
      let t1 ← Exp.infer n e0 t
      let t2 ← Exp.infer n e1 t
      if t1 ≠ Ty.TyBool then
        return Ty.TyIllTyped
      else if t2 ≠ Ty.TyBool then
        return Ty.TyIllTyped
      return Ty.TyBool
  | n + 1, .Group e, t => do
      let ty ← Exp.infer n (.Group e) t
      if ty ≠ Ty.TyIllTyped then
        return ty
      return Ty.TyIllTyped
  | n + 1, .Equals e0 e1, t => do
      let t1 ← Exp.infer n e0 t
      let t2 ← Exp.infer n e1 t
      if t1 = Ty.TyInt ∧ t2 = Ty.TyInt ∨ t1 = Ty.TyBool ∧ t2 = Ty.TyBool then
        return Ty.TyBool
      return Ty.TyIllTyped
  | n + 1, .Lesser e0 e1, t => do
      let t1 ← Exp.infer n e0 t
      let t2 ← Exp.infer n e1 t
      if t1 = Ty.TyInt ∧ t2 = Ty.TyInt then
        return Ty.TyInt
      return Ty.TyIllTyped

/-- The methods `check` of the statement nodes: the returned flag and the map
as the method leaves it. -/
def Stmt.check : Nat → Stmt → TyState → Option (Bool × TyState)
  | 0, _, _ => none
  | n + 1, .Seq s0 s1, t => do
      let r0 ← Stmt.check n s0 t
      if !r0.1 then
        return (false, r0.2)
      Stmt.check n s1 r0.2
  | n + 1, .Decl lhs rhs, t => do
      let ty ← Exp.infer n rhs t
      if ty = Ty.TyIllTyped then
        return (false, t)
      return (true, update t lhs ty)
  | n + 1, .Assign lhs rhs, t => do
      let ty ← Exp.infer n rhs t
      if ty = Ty.TyIllTyped then
        return (false, t)
      return (true, update t lhs ty)
  | n + 1, .IfThenElse cond thenStmt elseStmt, t => do
      let ty ← Exp.infer n cond t
      if ty = Ty.TyIllTyped then
        return (false, t)
      let th ← Stmt.check n thenStmt t
      let el ← Stmt.check n elseStmt th.2
      return (th.1 && el.1, el.2)
  | n + 1, .While cond stmt, t => do
      let ty ← Exp.infer n cond t
      if ty = Ty.TyIllTyped then
        return (false, t)
      Stmt.check n stmt t

/-! ## Results of a run -/

/-- Expression `e` evaluates to `v` in `s`: some amount of fuel suffices. -/
def Exp.evalsTo (e : Exp) (s : ValState) (v : Val) : Prop :=
  ∃ n, Exp.eval n e s = some v

/-- Expression `e` infers type `ty` in `t`: some amount of fuel suffices. -/
def Exp.infersTo (e : Exp) (t : TyState) (ty : Ty) : Prop :=
  ∃ n, Exp.infer n e t = some ty

/-- Statement `st` run in `s` returns and leaves the map `s1`. -/
def Stmt.evalsTo (st : Stmt) (s s1 : ValState) : Prop :=
  ∃ n, Stmt.eval n st s = some s1

/-- Statement `st` checked in `t` returns flag `b` and leaves the map `t1`. -/
def Stmt.checksTo (st : Stmt) (t : TyState) (b : Bool) (t1 : TyState) : Prop :=
  ∃ n, Stmt.check n st t = some (b, t1)

/-! ## Pretty printer -/

/-- The library function `strconv.Itoa`: the decimal digits of `x`, after a
minus sign when `x` is negative. -/
def itoa (x : Int) : String := toString x

/-- The methods `pretty` of the expression nodes.  `Group.pretty` calls
`pretty` on its own receiver `g`, not on `g[0]`. -/
def Exp.pretty : Nat → Exp → Option String
  | 0, _ => none
  | _ + 1, .Var x => some x
  | _ + 1, .Bool x => if x then some "true" else some "false"
  | n + 1, .Negate e => do
      let p ← Exp.pretty n e
      return "not " ++ p
  | n + 1, .Equals e0 e1 => do
      let p0 ← Exp.pretty n e0
      let p1 ← Exp.pretty n e1
      return "(" ++ p0 ++ "==" ++ p1 ++ ")"
  | n + 1, .Lesser e0 e1 => do
      let p0 ← Exp.pretty n e0
      let p1 ← Exp.pretty n e1
      return "(" ++ p0 ++ "<" ++ p1 ++ ")"
  | _ + 1, .Num x => some (itoa x)
  | n + 1, .Mult e0 e1 => do
      let p0 ← Exp.pretty n e0
      let p1 ← Exp.pretty n e1
      return "(" ++ p0 ++ "*" ++ p1 ++ ")"
  | n + 1, .Plus e0 e1 => do
      let p0 ← Exp.pretty n e0
      let p1 ← Exp.pretty n e1
      return "(" ++ p0 ++ "+" ++ p1 ++ ")"
  | n + 1, .And e0 e1 => do
      let p0 ← Exp.pretty n e0
      let p1 ← Exp.pretty n e1
      return "(" ++ p0 ++ "&&" ++ p1 ++ ")"
  | n + 1, .Or e0 e1 => do
      let p0 ← Exp.pretty n e0
      let p1 ← Exp.pretty n e1
      return "(" ++ p0 ++ "||" ++ p1 ++ ")"
  | n + 1, .Group e => do
      let p ← Exp.pretty n (.Group e)
      return "(" ++ p ++ ")"

/-- The methods `pretty` of the statement nodes. -/
def Stmt.pretty : Nat → Stmt → Option String
  | 0, _ => none
  | n + 1, .Seq s0 s1 => do
      let p0 ← Stmt.pretty n s0
      let p1 ← Stmt.pretty n s1
      return p0 ++ "; " ++ p1
  | n + 1, .Decl lhs rhs => do
      let p ← Exp.pretty n rhs
      return lhs ++ " := " ++ p
  | n + 1, .Assign lhs rhs => do
      let p ← Exp.pretty n rhs
      return lhs ++ " = " ++ p
  | n + 1, .IfThenElse cond thenStmt elseStmt => do
      let pc ← Exp.pretty n cond
      let pt ← Stmt.pretty n thenStmt
      let pe ← Stmt.pretty n elseStmt
      return "if" ++ pc ++ "\x7b" ++ pt ++ "\x7d else \x7b" ++ pe ++ "\x7d"
  | n + 1, .While cond stmt => do
      let pc ← Exp.pretty n cond
      let ps ← Stmt.pretty n stmt
      return "while" ++ pc ++ "\x7b" ++ ps ++ "\x7d"

/-- The node type `Print`, a one-element array of `Exp`.  It has the methods
`pretty` and `eval` but no `check`. -/
structure Print where
  e0 : Exp
  deriving DecidableEq, Repr

/-- The method `Print.pretty`: it calls `pretty` on its own receiver `pt`. -/
def Print.pretty : Nat → Print → Option String
  | 0, _ => none
  | n + 1, pt => Print.pretty n pt

/-- The method `Print.eval`: the wrapped expression is evaluated and its
value dropped. -/
def Print.eval : Nat → Print → ValState → Option ValState
  | 0, _, _ => none
  | n + 1, prnt, s => do
      let _ ← Exp.eval n prnt.e0 s
      return s

/-- Expression `e` is rendered as `p`: some amount of fuel suffices. -/
def Exp.prettyTo (e : Exp) (p : String) : Prop :=
  ∃ n, Exp.pretty n e = some p

/-- Statement `st` is rendered as `p`: some amount of fuel suffices. -/
def Stmt.prettyTo (st : Stmt) (p : String) : Prop :=
  ∃ n, Stmt.pretty n st = some p

/-! ## Fragments and invariants used in the statements -/

/-- The runtime tag that goes with a static type. -/
def Ty.kind : Ty → Kind
  | Ty.TyInt => Kind.ValueInt
  | Ty.TyBool => Kind.ValueBool
  | Ty.TyIllTyped => Kind.Undefined

/-- Expressions built from `Bool` and `Num` literals with `Negate`, `Mult`,
`Plus`, `And`, `Or` and `Equals` only. -/
def literalFragment : Exp → Bool
  | .Bool _ => true
  | .Num _ => true
  | .Negate e => literalFragment e
  | .Mult e0 e1 => literalFragment e0 && literalFragment e1
  | .Plus e0 e1 => literalFragment e0 && literalFragment e1
  | .And e0 e1 => literalFragment e0 && literalFragment e1
  | .Or e0 e1 => literalFragment e0 && literalFragment e1
  | .Equals e0 e1 => literalFragment e0 && literalFragment e1
  | .Lesser _ _ => false
  | .Group _ => false
  | .Var _ => false

/-- Some node of the expression is a `Group`. -/
def hasGroup : Exp → Bool
  | .Bool _ => false
  | .Num _ => false
  | .Var _ => false
  | .Negate e => hasGroup e
  | .Mult e0 e1 => hasGroup e0 || hasGroup e1
  | .Plus e0 e1 => hasGroup e0 || hasGroup e1
  | .And e0 e1 => hasGroup e0 || hasGroup e1
  | .Or e0 e1 => hasGroup e0 || hasGroup e1
  | .Equals e0 e1 => hasGroup e0 || hasGroup e1
  | .Lesser e0 e1 => hasGroup e0 || hasGroup e1
  | .Group _ => true

/-- The expression and its sub-expressions at every depth. -/
def subExps : Exp → List Exp
  | .Bool x => [.Bool x]
  | .Num x => [.Num x]
  | .Var x => [.Var x]
  | .Negate e => .Negate e :: subExps e
  | .Mult e0 e1 => .Mult e0 e1 :: (subExps e0 ++ subExps e1)
  | .Plus e0 e1 => .Plus e0 e1 :: (subExps e0 ++ subExps e1)
  | .And e0 e1 => .And e0 e1 :: (subExps e0 ++ subExps e1)
  | .Or e0 e1 => .Or e0 e1 :: (subExps e0 ++ subExps e1)
  | .Equals e0 e1 => .Equals e0 e1 :: (subExps e0 ++ subExps e1)
  | .Lesser e0 e1 => .Lesser e0 e1 :: (subExps e0 ++ subExps e1)
  | .Group e => .Group e :: subExps e

/-- No name of the type environment is bound to `IllTyped`. -/
def TyState.noIllTyped (t : TyState) : Prop :=
  ∀ x, t x ≠ some Ty.TyIllTyped

/-! ## Fuel lemmas -/

theorem exp_eval_group_none (n : Nat) (e : Exp) (s : ValState) :
    Exp.eval n (Exp.Group e) s = none := by
  induction n with
  | zero => rfl
  | succ n ih => simp [Exp.eval, ih]

theorem exp_infer_group_none (n : Nat) (e : Exp) (t : TyState) :
    Exp.infer n (Exp.Group e) t = none := by
  induction n with
  | zero => rfl
  | succ n ih => simp [Exp.infer, ih]

theorem exp_eval_succ {n : Nat} {e : Exp} {s : ValState} {v : Val}
    (h : Exp.eval n e s = some v) : Exp.eval (n + 1) e s = some v := by
  induction n generalizing e v with
  | zero => simp [Exp.eval] at h
  | succ n ih =>
    cases e with
    | Bool x => simpa [Exp.eval] using h
    | Num x => simpa [Exp.eval] using h
    | Var x => simpa [Exp.eval] using h
    | Negate e =>
      simp only [Exp.eval] at h ⊢
      cases h0 : Exp.eval n e s with
      | none => simp [h0] at h
      | some a => rw [ih h0]; rw [h0] at h; exact h
    | Group e => rw [exp_eval_group_none] at h; exact absurd h (by simp)
    | Mult e0 e1 | Plus e0 e1 | And e0 e1 | Or e0 e1 | Equals e0 e1 | Lesser e0 e1 =>
      simp only [Exp.eval] at h ⊢
      cases h0 : Exp.eval n e0 s with
      | none => simp [h0] at h
      | some a =>
        cases h1 : Exp.eval n e1 s with
        | none => simp [h0, h1] at h
        | some b => rw [ih h0, ih h1]; rw [h0, h1] at h; exact h

theorem exp_eval_mono {n m : Nat} {e : Exp} {s : ValState} {v : Val}
    (h : Exp.eval n e s = some v) (hnm : n ≤ m) : Exp.eval m e s = some v := by
  induction hnm with
  | refl => exact h
  | step _ ih => exact exp_eval_succ ih

theorem exp_eval_det {n m : Nat} {e : Exp} {s : ValState} {v w : Val}
    (h1 : Exp.eval n e s = some v) (h2 : Exp.eval m e s = some w) : v = w := by
  have a := exp_eval_mono h1 (Nat.le_max_left n m)
  have b := exp_eval_mono h2 (Nat.le_max_right n m)
  rw [a] at b
  exact Option.some.inj b

theorem whileLoop_mono {f g : ValState → Option ValState}
    (hfg : ∀ s s1, f s = some s1 → g s = some s1) (b : Bool) {k : Nat} {s s1 : ValState}
    (h : whileLoop f b k s = some s1) : whileLoop g b (k + 1) s = some s1 := by
  induction k generalizing s with
  | zero => simp [whileLoop] at h
  | succ k ih =>
    rw [whileLoop] at h ⊢
    cases hf : f s with
    | none => simp [hf] at h
    | some s2 =>
      rw [hf] at h
      rw [hfg s s2 hf]
      cases b with
      | false => simpa using h
      | true =>
        simp only [Bool.not_true, Bool.false_eq_true, if_false] at h ⊢
        exact ih h

theorem stmt_eval_succ {n : Nat} {st : Stmt} {s s1 : ValState}
    (h : Stmt.eval n st s = some s1) : Stmt.eval (n + 1) st s = some s1 := by
  induction n generalizing st s s1 with
  | zero => simp [Stmt.eval] at h
  | succ n ih =>
    cases st with
    | Seq s0 s2 =>
      simp only [Stmt.eval] at h ⊢
      cases h0 : Stmt.eval n s0 s with
      | none => simp [h0] at h
      | some a =>
        rw [ih h0]; rw [h0] at h
        exact ih h
    | Decl lhs rhs | Assign lhs rhs =>
      simp only [Stmt.eval] at h ⊢
      cases h0 : Exp.eval n rhs s with
      | none => simp [h0] at h
      | some a => rw [exp_eval_succ h0]; rw [h0] at h; exact h
    | IfThenElse c th el =>
      simp only [Stmt.eval] at h ⊢
      cases h0 : Exp.eval n c s with
      | none => simp [h0] at h
      | some a =>
        rw [exp_eval_succ h0]; rw [h0] at h
        simp only [Option.bind_eq_bind, Option.some_bind] at h ⊢
        split at h
        · rename_i hb
          rw [if_pos hb]
          split at h
          · rename_i hv
            rw [if_pos hv]; exact ih h
          · rename_i hv
            rw [if_neg hv]; exact ih h
        · rename_i hb
          rw [if_neg hb]; exact h
    | While c body =>
      simp only [Stmt.eval] at h ⊢
      cases h0 : Exp.eval n c s with
      | none => simp [h0] at h
      | some a =>
        rw [exp_eval_succ h0]; rw [h0] at h
        simp only [Option.bind_eq_bind, Option.some_bind] at h ⊢
        split at h
        · rename_i hb
          rw [if_pos hb]
          exact whileLoop_mono (fun _ _ hs => ih hs) a.valB h
        · rename_i hb
          rw [if_neg hb]; exact h

theorem stmt_eval_mono {n m : Nat} {st : Stmt} {s s1 : ValState}
    (h : Stmt.eval n st s = some s1) (hnm : n ≤ m) : Stmt.eval m st s = some s1 := by
  induction hnm with
  | refl => exact h
  | step _ ih => exact stmt_eval_succ ih

theorem stmt_eval_det {n m : Nat} {st : Stmt} {s s1 s2 : ValState}
    (h1 : Stmt.eval n st s = some s1) (h2 : Stmt.eval m st s = some s2) : s1 = s2 := by
  have a := stmt_eval_mono h1 (Nat.le_max_left n m)
  have b := stmt_eval_mono h2 (Nat.le_max_right n m)
  rw [a] at b
  exact Option.some.inj b

theorem whileLoop_true (body : ValState → Option ValState) (k : Nat) (s : ValState) :
    whileLoop body true k s = none := by
  induction k generalizing s with
  | zero => rfl
  | succ k ih =>
    rw [whileLoop]
    cases body s with
    | none => rfl
    | some s1 => simpa using ih s1

theorem exp_evalsTo_det {e : Exp} {s : ValState} {v w : Val}
    (h1 : Exp.evalsTo e s v) (h2 : Exp.evalsTo e s w) : v = w := by
  obtain ⟨n, hn⟩ := h1
  obtain ⟨m, hm⟩ := h2
  exact exp_eval_det hn hm

/-- Both operands of a binary node evaluated with a common amount of fuel. -/
theorem exp_evalsTo_pair {e1 e2 : Exp} {s : ValState} {v1 v2 : Val}
    (h1 : Exp.evalsTo e1 s v1) (h2 : Exp.evalsTo e2 s v2) :
    ∃ n, Exp.eval n e1 s = some v1 ∧ Exp.eval n e2 s = some v2 := by
  obtain ⟨n, hn⟩ := h1
  obtain ⟨m, hm⟩ := h2
  exact ⟨max n m, exp_eval_mono hn (Nat.le_max_left n m), exp_eval_mono hm (Nat.le_max_right n m)⟩

/-! ## Soundness of `infer` (C1) -/

/-- C1 (the code breaks the claim): `plus(lesser(number(1), number(2)), number(3))`
is well typed in the empty type environment, `infer` returns `TyInt`, because
`Lesser.infer` returns `TyInt`; yet `eval` in the empty value environment
returns `Undefined`, because `Lesser.eval` returns a Boolean. -/
theorem infer_unsound_at_lesser :
    Exp.infer 3 (Exp.Plus (Exp.Lesser (Exp.Num 1) (Exp.Num 2)) (Exp.Num 3)) emptyTy
        = some Ty.TyInt ∧
      Exp.eval 3 (Exp.Plus (Exp.Lesser (Exp.Num 1) (Exp.Num 2)) (Exp.Num 3)) emptyVal
        = some mkUndefined ∧
      Exp.eval 2 (Exp.Lesser (Exp.Num 1) (Exp.Num 2)) emptyVal = some (mkBool true) ∧
      Exp.infer 2 (Exp.Lesser (Exp.Num 1) (Exp.Num 2)) emptyTy = some Ty.TyInt := by
  decide

/-! ## Loops (C2, C3) -/

/-- C2 (the code breaks the claim): with the guard `false` the body of
`while false { x = 1 }` is run once, so the empty environment ends with
`x` bound to `Integer(1)` instead of being left as it was. -/
theorem while_false_guard_runs_body_once :
    Exp.eval 1 (Exp.Bool false) emptyVal = some (mkBool false) ∧
      Stmt.eval 3 (Stmt.While (Exp.Bool false) (Stmt.Assign "x" (Exp.Num 1))) emptyVal
        = some (update emptyVal "x" (mkInt 1)) ∧
      emptyVal "x" = none ∧
      update emptyVal "x" (mkInt 1) "x" = some (mkInt 1) := by
  refine ⟨rfl, rfl, rfl, ?_⟩
  simp [update]

/-- C3 (the code breaks the claim): started with `i = Integer(0)`, the loop
`while (i<3) { i = (i+1) }` returns for no amount of fuel: the guard is read
once, before the loop, and its value `true` is never refreshed. -/
theorem while_counter_never_returns (n : Nat) :
    Stmt.eval n
      (Stmt.While (Exp.Lesser (Exp.Var "i") (Exp.Num 3))
        (Stmt.Assign "i" (Exp.Plus (Exp.Var "i") (Exp.Num 1))))
      (update emptyVal "i" (mkInt 0)) = none := by
  rcases n with _ | _ | _ | n
  · rfl
  · rfl
  · rfl
  · have hg : Exp.eval (n + 2) (Exp.Lesser (Exp.Var "i") (Exp.Num 3))
        (update emptyVal "i" (mkInt 0)) = some (mkBool true) :=
      exp_eval_mono (n := 2) (by decide) (by omega)
    simp only [Stmt.eval, hg, Option.bind_eq_bind, Option.some_bind]
    simp [mkBool, whileLoop_true]

/-! ## Boolean connectives (C4, C5) -/

/-- C4 (counterexample): the left operand `false` evaluates to `Boolean(false)`,
but `And(false, Group(0))` evaluates to no value at all, since `And.eval`
evaluates its right operand before it looks at the left one. -/
theorem and_false_group_no_value :
    Exp.evalsTo (Exp.Bool false) emptyVal (mkBool false) ∧
      ¬ ∃ v, Exp.evalsTo (Exp.And (Exp.Bool false) (Exp.Group (Exp.Num 0))) emptyVal v := by
  refine ⟨⟨1, rfl⟩, ?_⟩
  rintro ⟨v, n, hn⟩
  rcases n with _ | n
  · simp [Exp.eval] at hn
  · simp only [Exp.eval, exp_eval_group_none] at hn
    cases h0 : Exp.eval n (Exp.Bool false) emptyVal <;> simp [h0] at hn

/-- C4 (amended): when both operands of `And` evaluate, to `v1` and `v2`, the
node evaluates to `Boolean(false)` if `v1` is the Boolean `false`, whatever the
kind of `v2`; to the Boolean conjunction if `v1` is the Boolean `true` and `v2`
a Boolean; and to `Undefined` in the remaining cases. -/
theorem and_eval_of_operands (S : ValState) (e1 e2 : Exp) (v1 v2 : Val)
    (h1 : Exp.evalsTo e1 S v1) (h2 : Exp.evalsTo e2 S v2) :
    (v1.flag = Kind.ValueBool → v1.valB = false →
        Exp.evalsTo (Exp.And e1 e2) S (mkBool false)) ∧
      (v1.flag = Kind.ValueBool → v1.valB = true → v2.flag = Kind.ValueBool →
        Exp.evalsTo (Exp.And e1 e2) S (mkBool (v1.valB && v2.valB))) ∧
      (v1.flag ≠ Kind.ValueBool ∨ (v1.valB = true ∧ v2.flag ≠ Kind.ValueBool) →
        Exp.evalsTo (Exp.And e1 e2) S mkUndefined) := by
  obtain ⟨n, hn1, hn2⟩ := exp_evalsTo_pair h1 h2
  refine ⟨fun hf hb => ⟨n + 1, ?_⟩, fun hf hb hf2 => ⟨n + 1, ?_⟩, fun h => ⟨n + 1, ?_⟩⟩
  · simp [Exp.eval, hn1, hn2, hf, hb]
  · simp [Exp.eval, hn1, hn2, hf, hb, hf2]
  · rcases h with h | ⟨hb, h⟩
    · simp [Exp.eval, hn1, hn2, h]
    · simp [Exp.eval, hn1, hn2, h, hb]

/-- C4 (witness): the example `and(boolean(false), number(0))` of `ex2`. -/
theorem and_eval_of_operands_witness :
    Exp.evalsTo (Exp.Bool false) emptyVal (mkBool false) ∧
      Exp.evalsTo (Exp.Num 0) emptyVal (mkInt 0) ∧
      Exp.evalsTo (Exp.And (Exp.Bool false) (Exp.Num 0)) emptyVal (mkBool false) :=
  ⟨⟨1, rfl⟩, ⟨1, rfl⟩,
    (and_eval_of_operands emptyVal (Exp.Bool false) (Exp.Num 0) (mkBool false) (mkInt 0)
      ⟨1, rfl⟩ ⟨1, rfl⟩).1 rfl rfl⟩

/-- C5 (counterexample): the left operand `true` evaluates to `Boolean(true)`,
but `Or(true, Group(0))` evaluates to no value at all, since `Or.eval`
evaluates its right operand before it looks at the left one. -/
theorem or_true_group_no_value :
    Exp.evalsTo (Exp.Bool true) emptyVal (mkBool true) ∧
      ¬ ∃ v, Exp.evalsTo (Exp.Or (Exp.Bool true) (Exp.Group (Exp.Num 0))) emptyVal v := by
  refine ⟨⟨1, rfl⟩, ?_⟩
  rintro ⟨v, n, hn⟩
  rcases n with _ | n
  · simp [Exp.eval] at hn
  · simp only [Exp.eval, exp_eval_group_none] at hn
    cases h0 : Exp.eval n (Exp.Bool true) emptyVal <;> simp [h0] at hn

/-- C5 (amended): when both operands of `Or` evaluate, to `v1` and `v2`, the
node evaluates to `Boolean(true)` if `v1` is the Boolean `true`, whatever the
kind of `v2`; to the Boolean disjunction if `v1` is the Boolean `false` and `v2`
a Boolean; and to `Undefined` in the remaining cases. -/
theorem or_eval_of_operands (S : ValState) (e1 e2 : Exp) (v1 v2 : Val)
    (h1 : Exp.evalsTo e1 S v1) (h2 : Exp.evalsTo e2 S v2) :
    (v1.flag = Kind.ValueBool → v1.valB = true →
        Exp.evalsTo (Exp.Or e1 e2) S (mkBool true)) ∧
      (v1.flag = Kind.ValueBool → v1.valB = false → v2.flag = Kind.ValueBool →
        Exp.evalsTo (Exp.Or e1 e2) S (mkBool (v1.valB || v2.valB))) ∧
      (v1.flag ≠ Kind.ValueBool ∨ (v1.valB = false ∧ v2.flag ≠ Kind.ValueBool) →
        Exp.evalsTo (Exp.Or e1 e2) S mkUndefined) := by
  obtain ⟨n, hn1, hn2⟩ := exp_evalsTo_pair h1 h2
  refine ⟨fun hf hb => ⟨n + 1, ?_⟩, fun hf hb hf2 => ⟨n + 1, ?_⟩, fun h => ⟨n + 1, ?_⟩⟩
  · simp [Exp.eval, hn1, hn2, hf, hb]
  · simp [Exp.eval, hn1, hn2, hf, hb, hf2]
  · rcases h with h | ⟨hb, h⟩
    · simp [Exp.eval, hn1, hn2, h]
    · simp [Exp.eval, hn1, hn2, h, hb]

/-- C5 (witness): the example `or(boolean(false), number(0))` of `ex3`
evaluates to `Undefined`. -/
theorem or_eval_of_operands_witness :
    Exp.evalsTo (Exp.Bool false) emptyVal (mkBool false) ∧
      Exp.evalsTo (Exp.Num 0) emptyVal (mkInt 0) ∧
      Exp.evalsTo (Exp.Or (Exp.Bool false) (Exp.Num 0)) emptyVal mkUndefined :=
  ⟨⟨1, rfl⟩, ⟨1, rfl⟩,
    (or_eval_of_operands emptyVal (Exp.Bool false) (Exp.Num 0) (mkBool false) (mkInt 0)
      ⟨1, rfl⟩ ⟨1, rfl⟩).2.2 (Or.inr ⟨rfl, by decide⟩)⟩

/-! ## Comparison and arithmetic (C6, C7) -/

/-- C6 (counterexample): `group(0)` evaluates to no value, so the operands of
`Equals(group(0), 0)` evaluate neither to two Booleans nor to two Integers;
yet the node evaluates to no value at all, `Undefined` included, since
`Equals.eval` evaluates both operands before it inspects either. -/
theorem equals_group_no_value :
    (¬ ∃ v, Exp.evalsTo (Exp.Group (Exp.Num 0)) emptyVal v) ∧
      Exp.evalsTo (Exp.Num 0) emptyVal (mkInt 0) ∧
      ¬ ∃ v, Exp.evalsTo (Exp.Equals (Exp.Group (Exp.Num 0)) (Exp.Num 0)) emptyVal v := by
  refine ⟨?_, ⟨1, rfl⟩, ?_⟩
  · rintro ⟨v, n, hn⟩
    rw [exp_eval_group_none] at hn
    exact absurd hn (by simp)
  · rintro ⟨v, n, hn⟩
    rcases n with _ | n
    · simp [Exp.eval] at hn
    · simp [Exp.eval, exp_eval_group_none] at hn

/-- C6 (amended): when the operands of `Equals` both evaluate, to `v1` and
`v2`, the node evaluates to the Boolean `v1.valB == v2.valB` if both are
Booleans, to the Boolean of the strict `v1.valI < v2.valI` if both are
Integers, and to `Undefined` in every other case. -/
theorem equals_eval_of_operands (S : ValState) (e1 e2 : Exp) (v1 v2 : Val)
    (h1 : Exp.evalsTo e1 S v1) (h2 : Exp.evalsTo e2 S v2) :
    (v1.flag = Kind.ValueBool → v2.flag = Kind.ValueBool →
        Exp.evalsTo (Exp.Equals e1 e2) S (mkBool (v1.valB == v2.valB))) ∧
      (v1.flag = Kind.ValueInt → v2.flag = Kind.ValueInt →
        Exp.evalsTo (Exp.Equals e1 e2) S (mkBool (decide (v1.valI < v2.valI)))) ∧
      (¬ (v1.flag = Kind.ValueBool ∧ v2.flag = Kind.ValueBool) →
        ¬ (v1.flag = Kind.ValueInt ∧ v2.flag = Kind.ValueInt) →
        Exp.evalsTo (Exp.Equals e1 e2) S mkUndefined) := by
  obtain ⟨n, hn1, hn2⟩ := exp_evalsTo_pair h1 h2
  refine ⟨fun hf1 hf2 => ⟨n + 1, ?_⟩, fun hf1 hf2 => ⟨n + 1, ?_⟩, fun hb hi => ⟨n + 1, ?_⟩⟩
  · simp [Exp.eval, hn1, hn2, hf1, hf2]
  · simp [Exp.eval, hn1, hn2, hf1, hf2]
  · simp only [Exp.eval, hn1, hn2, Option.bind_eq_bind, Option.some_bind, if_neg hb, if_neg hi]
    rfl

/-- C6 (witness): `Equals(Num(3), Num(3))` evaluates to `Boolean(false)`. -/
theorem equals_eval_of_operands_witness :
    Exp.evalsTo (Exp.Num 3) emptyVal (mkInt 3) ∧
      Exp.evalsTo (Exp.Equals (Exp.Num 3) (Exp.Num 3)) emptyVal (mkBool false) :=
  ⟨⟨1, rfl⟩,
    (equals_eval_of_operands emptyVal (Exp.Num 3) (Exp.Num 3) (mkInt 3) (mkInt 3)
      ⟨1, rfl⟩ ⟨1, rfl⟩).2.1 rfl rfl⟩

theorem wrapInt_of_inRange {x : Int} (hlo : -9223372036854775808 ≤ x)
    (hhi : x < 9223372036854775808) : wrapInt x = x := by
  unfold wrapInt
  omega

/-- C7 (counterexample): `Plus(Num(9223372036854775807), Num(1))` evaluates to
`Integer(-9223372036854775808)`, which is not the arithmetic sum of the two
operands. -/
theorem plus_overflow_wraps :
    Exp.eval 2 (Exp.Plus (Exp.Num 9223372036854775807) (Exp.Num 1)) emptyVal
        = some (mkInt (-9223372036854775808)) ∧
      mkInt (-9223372036854775808) ≠ mkInt (9223372036854775807 + 1) := by
  decide

/-- C7 (amended): when the operands evaluate to `v1` and `v2`, both Integers,
`Plus` and `Mult` evaluate to the Integer of the sum and of the product reduced
to the 64-bit range, which is the arithmetic sum or product whenever that lies
in the range; when one of `v1`, `v2` is not an Integer both evaluate to
`Undefined`.  `Plus(Num(1), Mult(Num(2), Num(3)))` evaluates to `Integer(7)`. -/
theorem plus_mult_eval_of_operands (S : ValState) (e1 e2 : Exp) (v1 v2 : Val)
    (h1 : Exp.evalsTo e1 S v1) (h2 : Exp.evalsTo e2 S v2) :
    (v1.flag = Kind.ValueInt → v2.flag = Kind.ValueInt →
        Exp.evalsTo (Exp.Plus e1 e2) S (mkInt (wrapInt (v1.valI + v2.valI))) ∧
        Exp.evalsTo (Exp.Mult e1 e2) S (mkInt (wrapInt (v1.valI * v2.valI)))) ∧
      (v1.flag = Kind.ValueInt → v2.flag = Kind.ValueInt →
        -9223372036854775808 ≤ v1.valI + v2.valI → v1.valI + v2.valI < 9223372036854775808 →
        Exp.evalsTo (Exp.Plus e1 e2) S (mkInt (v1.valI + v2.valI))) ∧
      (v1.flag = Kind.ValueInt → v2.flag = Kind.ValueInt →
        -9223372036854775808 ≤ v1.valI * v2.valI → v1.valI * v2.valI < 9223372036854775808 →
        Exp.evalsTo (Exp.Mult e1 e2) S (mkInt (v1.valI * v2.valI))) ∧
      (¬ (v1.flag = Kind.ValueInt ∧ v2.flag = Kind.ValueInt) →
        Exp.evalsTo (Exp.Plus e1 e2) S mkUndefined ∧
        Exp.evalsTo (Exp.Mult e1 e2) S mkUndefined) ∧
      Exp.evalsTo (Exp.Plus (Exp.Num 1) (Exp.Mult (Exp.Num 2) (Exp.Num 3))) emptyVal (mkInt 7) := by
  obtain ⟨n, hn1, hn2⟩ := exp_evalsTo_pair h1 h2
  have hp : v1.flag = Kind.ValueInt → v2.flag = Kind.ValueInt →
      Exp.eval (n + 1) (Exp.Plus e1 e2) S = some (mkInt (wrapInt (v1.valI + v2.valI))) := by
    intro hf1 hf2
    simp [Exp.eval, hn1, hn2, hf1, hf2]
  have hm : v1.flag = Kind.ValueInt → v2.flag = Kind.ValueInt →
      Exp.eval (n + 1) (Exp.Mult e1 e2) S = some (mkInt (wrapInt (v1.valI * v2.valI))) := by
    intro hf1 hf2
    simp [Exp.eval, hn1, hn2, hf1, hf2]
  refine ⟨fun hf1 hf2 => ⟨⟨n + 1, hp hf1 hf2⟩, ⟨n + 1, hm hf1 hf2⟩⟩,
    fun hf1 hf2 hlo hhi => ⟨n + 1, ?_⟩, fun hf1 hf2 hlo hhi => ⟨n + 1, ?_⟩,
    fun hne => ⟨⟨n + 1, ?_⟩, ⟨n + 1, ?_⟩⟩, ⟨3, by decide⟩⟩
  · rw [hp hf1 hf2, wrapInt_of_inRange hlo hhi]
  · rw [hm hf1 hf2, wrapInt_of_inRange hlo hhi]
  · simp only [Exp.eval, hn1, hn2, Option.bind_eq_bind, Option.some_bind, if_neg hne]
    rfl
  · simp only [Exp.eval, hn1, hn2, Option.bind_eq_bind, Option.some_bind, if_neg hne]
    rfl

/-- C7 (witness): `Plus(Num(2), Num(3))` evaluates to `Integer(5)`. -/
theorem plus_mult_eval_of_operands_witness :
    Exp.evalsTo (Exp.Num 2) emptyVal (mkInt 2) ∧
      Exp.evalsTo (Exp.Num 3) emptyVal (mkInt 3) ∧
      Exp.evalsTo (Exp.Plus (Exp.Num 2) (Exp.Num 3)) emptyVal (mkInt 5) ∧
      Exp.evalsTo (Exp.Mult (Exp.Num 2) (Exp.Num 3)) emptyVal (mkInt 6) :=
  ⟨⟨1, rfl⟩, ⟨1, rfl⟩,
    (plus_mult_eval_of_operands emptyVal (Exp.Num 2) (Exp.Num 3) (mkInt 2) (mkInt 3)
      ⟨1, rfl⟩ ⟨1, rfl⟩).2.1 rfl rfl (by decide) (by decide),
    (plus_mult_eval_of_operands emptyVal (Exp.Num 2) (Exp.Num 3) (mkInt 2) (mkInt 3)
      ⟨1, rfl⟩ ⟨1, rfl⟩).2.2.1 rfl rfl (by decide) (by decide)⟩

/-! ## Statements (C8, C9, C10) -/

theorem update_same {α : Type} (m : String → Option α) (x : String) (v : α) :
    update m x v x = some v := by
  simp [update]

theorem update_other {α : Type} (m : String → Option α) (x : String) (v : α) (y : String)
    (h : y ≠ x) : update m x v y = m y := by
  simp [update, h]

/-- C8: `Decl.eval` and `Assign.eval` are the same function of the
environment; when the right-hand side evaluates to `v` both return the
environment that binds `x` to `v` and is `S` on every other name. -/
theorem decl_assign_same_effect (x : String) (e : Exp) (S : ValState) (v : Val)
    (h : Exp.evalsTo e S v) :
    (∀ n, Stmt.eval n (Stmt.Decl x e) S = Stmt.eval n (Stmt.Assign x e) S) ∧
      Stmt.evalsTo (Stmt.Decl x e) S (update S x v) ∧
      Stmt.evalsTo (Stmt.Assign x e) S (update S x v) ∧
      update S x v x = some v ∧
      ∀ y, y ≠ x → update S x v y = S y := by
  obtain ⟨n, hn⟩ := h
  refine ⟨?_, ⟨n + 1, ?_⟩, ⟨n + 1, ?_⟩, update_same S x v, fun y hy => update_other S x v y hy⟩
  · intro m
    cases m with
    | zero => rfl
    | succ m => simp only [Stmt.eval]
  · simp [Stmt.eval, hn]
  · simp [Stmt.eval, hn]

/-- C8 (witness): `x := 5` and `x = 5` run in an environment where `x` is
`Boolean(true)` both leave `x` bound to `Integer(5)`. -/
theorem decl_assign_same_effect_witness :
    Exp.evalsTo (Exp.Num 5) (update emptyVal "x" (mkBool true)) (mkInt 5) ∧
      Stmt.evalsTo (Stmt.Decl "x" (Exp.Num 5)) (update emptyVal "x" (mkBool true))
        (update (update emptyVal "x" (mkBool true)) "x" (mkInt 5)) ∧
      Stmt.evalsTo (Stmt.Assign "x" (Exp.Num 5)) (update emptyVal "x" (mkBool true))
        (update (update emptyVal "x" (mkBool true)) "x" (mkInt 5)) ∧
      update (update emptyVal "x" (mkBool true)) "x" (mkInt 5) "x" = some (mkInt 5) :=
  ⟨⟨1, rfl⟩,
    (decl_assign_same_effect "x" (Exp.Num 5) (update emptyVal "x" (mkBool true)) (mkInt 5)
      ⟨1, rfl⟩).2.1,
    (decl_assign_same_effect "x" (Exp.Num 5) (update emptyVal "x" (mkBool true)) (mkInt 5)
      ⟨1, rfl⟩).2.2.1,
    (decl_assign_same_effect "x" (Exp.Num 5) (update emptyVal "x" (mkBool true)) (mkInt 5)
      ⟨1, rfl⟩).2.2.2.1⟩

/-- The run of a conditional whose condition evaluates to `v`. -/
theorem stmt_evalsTo_ifThenElse {S : ValState} {c : Exp} {t e : Stmt} {v : Val}
    (hc : Exp.evalsTo c S v) (S1 : ValState) :
    Stmt.evalsTo (Stmt.IfThenElse c t e) S S1 ↔
      ∃ m, (if v.flag = Kind.ValueBool then
              (if v.valB then Stmt.eval m t S else Stmt.eval m e S)
            else some S) = some S1 := by
  obtain ⟨n, hn⟩ := hc
  constructor
  · rintro ⟨m, hm⟩
    rcases m with _ | m
    · simp [Stmt.eval] at hm
    · simp only [Stmt.eval] at hm
      cases h0 : Exp.eval m c S with
      | none => simp [h0] at hm
      | some w =>
        have hw : w = v := exp_eval_det h0 hn
        subst hw
        rw [h0] at hm
        exact ⟨m, hm⟩
  · rintro ⟨m, hm⟩
    refine ⟨max n m + 1, ?_⟩
    simp only [Stmt.eval, exp_eval_mono hn (Nat.le_max_left n m), Option.bind_eq_bind,
      Option.some_bind]
    split at hm
    · rename_i hb
      rw [if_pos hb]
      split at hm
      · rename_i hv
        rw [if_pos hv]; exact stmt_eval_mono hm (Nat.le_max_right n m)
      · rename_i hv
        rw [if_neg hv]; exact stmt_eval_mono hm (Nat.le_max_right n m)
    · rename_i hb
      rw [if_neg hb]; exact hm

/-- C9: when the condition evaluates to `v`, the conditional returns exactly
the environments the then-branch returns if `v` is the Boolean `true`, exactly
those the else-branch returns if `v` is the Boolean `false`, and returns `S`
itself, no branch being run, if `v` is not a Boolean. -/
theorem ifThenElse_eval_of_cond (S : ValState) (c : Exp) (t e : Stmt) (v : Val)
    (hc : Exp.evalsTo c S v) :
    (v.flag = Kind.ValueBool → v.valB = true →
        ∀ S1, Stmt.evalsTo (Stmt.IfThenElse c t e) S S1 ↔ Stmt.evalsTo t S S1) ∧
      (v.flag = Kind.ValueBool → v.valB = false →
        ∀ S1, Stmt.evalsTo (Stmt.IfThenElse c t e) S S1 ↔ Stmt.evalsTo e S S1) ∧
      (v.flag ≠ Kind.ValueBool →
        ∀ S1, Stmt.evalsTo (Stmt.IfThenElse c t e) S S1 ↔ S1 = S) := by
  refine ⟨fun hf hb S1 => ?_, fun hf hb S1 => ?_, fun hf S1 => ?_⟩
  · rw [stmt_evalsTo_ifThenElse hc]
    simp [hf, hb, Stmt.evalsTo]
  · rw [stmt_evalsTo_ifThenElse hc]
    simp [hf, hb, Stmt.evalsTo]
  · rw [stmt_evalsTo_ifThenElse hc]
    simp [hf, eq_comm]

/-- C9 (witness): `if true {x = 1} else {y = 2}` run in the empty
environment leaves exactly the binding `x = Integer(1)`. -/
theorem ifThenElse_eval_of_cond_witness :
    Exp.evalsTo (Exp.Bool true) emptyVal (mkBool true) ∧
      Stmt.evalsTo
        (Stmt.IfThenElse (Exp.Bool true) (Stmt.Assign "x" (Exp.Num 1))
          (Stmt.Assign "y" (Exp.Num 2)))
        emptyVal (update emptyVal "x" (mkInt 1)) :=
  ⟨⟨1, rfl⟩,
    ((ifThenElse_eval_of_cond emptyVal (Exp.Bool true) (Stmt.Assign "x" (Exp.Num 1))
      (Stmt.Assign "y" (Exp.Num 2)) (mkBool true) ⟨1, rfl⟩).1 rfl rfl
        (update emptyVal "x" (mkInt 1))).mpr ⟨2, rfl⟩⟩

/-- C10: `check` of `x := e` and of `x = e` returns `true` exactly when `infer`
returns a type other than `IllTyped` for `e`, and then leaves the environment
that binds `x` to that type, whatever `x` was bound to, and is `T` on every
other name; it returns `false` exactly when `infer` returns `IllTyped`, and
then leaves `T`.  So `x := true` checked in the empty environment binds `x`
to `Bool`, and `x = 4` checked next succeeds and rebinds `x` to `Int`. -/
theorem check_decl_assign (x : String) (e : Exp) (T : TyState) :
    (∀ T1, Stmt.checksTo (Stmt.Decl x e) T true T1 ↔
        ∃ ty, Exp.infersTo e T ty ∧ ty ≠ Ty.TyIllTyped ∧ T1 = update T x ty) ∧
      (∀ T1, Stmt.checksTo (Stmt.Decl x e) T false T1 ↔
        Exp.infersTo e T Ty.TyIllTyped ∧ T1 = T) ∧
      (∀ T1, Stmt.checksTo (Stmt.Assign x e) T true T1 ↔
        ∃ ty, Exp.infersTo e T ty ∧ ty ≠ Ty.TyIllTyped ∧ T1 = update T x ty) ∧
      (∀ T1, Stmt.checksTo (Stmt.Assign x e) T false T1 ↔
        Exp.infersTo e T Ty.TyIllTyped ∧ T1 = T) ∧
      (∀ ty, update T x ty x = some ty ∧ ∀ y, y ≠ x → update T x ty y = T y) ∧
      Stmt.checksTo (Stmt.Decl "x" (Exp.Bool true)) emptyTy true
        (update emptyTy "x" Ty.TyBool) ∧
      Stmt.checksTo (Stmt.Assign "x" (Exp.Num 4)) (update emptyTy "x" Ty.TyBool) true
        (update (update emptyTy "x" Ty.TyBool) "x" Ty.TyInt) ∧
      update emptyTy "x" Ty.TyBool "x" = some Ty.TyBool ∧
      update (update emptyTy "x" Ty.TyBool) "x" Ty.TyInt "x" = some Ty.TyInt := by
  have key : ∀ (st : Stmt), (∀ n, Stmt.check (n + 1) st T =
      (Exp.infer n e T).bind (fun ty =>
        if ty = Ty.TyIllTyped then some (false, T) else some (true, update T x ty))) →
      (∀ T1, Stmt.checksTo st T true T1 ↔
        ∃ ty, Exp.infersTo e T ty ∧ ty ≠ Ty.TyIllTyped ∧ T1 = update T x ty) ∧
      (∀ T1, Stmt.checksTo st T false T1 ↔ Exp.infersTo e T Ty.TyIllTyped ∧ T1 = T) := by
    intro st hst
    constructor
    · intro T1
      constructor
      · rintro ⟨m, hm⟩
        rcases m with _ | m
        · simp [Stmt.check] at hm
        · rw [hst] at hm
          cases h0 : Exp.infer m e T with
          | none => simp [h0] at hm
          | some ty =>
            by_cases hty : ty = Ty.TyIllTyped
            · simp [h0, hty] at hm
            · simp only [h0, Option.some_bind, if_neg hty, Option.some.injEq,
                Prod.mk.injEq, true_and] at hm
              exact ⟨ty, ⟨m, h0⟩, hty, hm.symm⟩
      · rintro ⟨ty, ⟨m, hm⟩, hty, rfl⟩
        exact ⟨m + 1, by rw [hst]; simp [hm, hty]⟩
    · intro T1
      constructor
      · rintro ⟨m, hm⟩
        rcases m with _ | m
        · simp [Stmt.check] at hm
        · rw [hst] at hm
          cases h0 : Exp.infer m e T with
          | none => simp [h0] at hm
          | some ty =>
            by_cases hty : ty = Ty.TyIllTyped
            · simp only [h0, Option.some_bind, if_pos hty, Option.some.injEq,
                Prod.mk.injEq, true_and] at hm
              exact ⟨⟨m, by rw [h0, hty]⟩, hm.symm⟩
            · simp [h0, hty] at hm
      · rintro ⟨⟨m, hm⟩, rfl⟩
        exact ⟨m + 1, by rw [hst]; simp [hm]⟩
  have hd := key (Stmt.Decl x e) (fun n => by
    simp only [Stmt.check]
    cases Exp.infer n e T <;> rfl)
  have ha := key (Stmt.Assign x e) (fun n => by
    simp only [Stmt.check]
    cases Exp.infer n e T <;> rfl)
  refine ⟨hd.1, hd.2, ha.1, ha.2, fun ty => ⟨update_same T x ty, fun y hy => update_other T x ty y hy⟩,
    ⟨2, rfl⟩, ⟨2, rfl⟩, update_same _ _ _, update_same _ _ _⟩

/-! ## Fuel lemmas for `infer` and `check` -/

theorem exp_infer_succ {n : Nat} {e : Exp} {t : TyState} {ty : Ty}
    (h : Exp.infer n e t = some ty) : Exp.infer (n + 1) e t = some ty := by
  induction n generalizing e ty with
  | zero => simp [Exp.infer] at h
  | succ n ih =>
    cases e with
    | Bool x => simpa [Exp.infer] using h
    | Num x => simpa [Exp.infer] using h
    | Var x => simpa [Exp.infer] using h
    | Negate e =>
      simp only [Exp.infer] at h ⊢
      cases h0 : Exp.infer n e t with
      | none => simp [h0] at h
      | some a => rw [ih h0]; rw [h0] at h; exact h
    | Group e => rw [exp_infer_group_none] at h; exact absurd h (by simp)
    | Mult e0 e1 | Plus e0 e1 | And e0 e1 | Or e0 e1 | Equals e0 e1 | Lesser e0 e1 =>
      simp only [Exp.infer] at h ⊢
      cases h0 : Exp.infer n e0 t with
      | none => simp [h0] at h
      | some a =>
        cases h1 : Exp.infer n e1 t with
        | none => simp [h0, h1] at h
        | some b => rw [ih h0, ih h1]; rw [h0, h1] at h; exact h

theorem exp_infer_mono {n m : Nat} {e : Exp} {t : TyState} {ty : Ty}
    (h : Exp.infer n e t = some ty) (hnm : n ≤ m) : Exp.infer m e t = some ty := by
  induction hnm with
  | refl => exact h
  | step _ ih => exact exp_infer_succ ih

theorem exp_infer_det {n m : Nat} {e : Exp} {t : TyState} {ty ty1 : Ty}
    (h1 : Exp.infer n e t = some ty) (h2 : Exp.infer m e t = some ty1) : ty = ty1 := by
  have a := exp_infer_mono h1 (Nat.le_max_left n m)
  have b := exp_infer_mono h2 (Nat.le_max_right n m)
  rw [a] at b
  exact Option.some.inj b

theorem stmt_check_succ {n : Nat} {st : Stmt} {t : TyState} {r : Bool × TyState}
    (h : Stmt.check n st t = some r) : Stmt.check (n + 1) st t = some r := by
  induction n generalizing st t r with
  | zero => simp [Stmt.check] at h
  | succ n ih =>
    cases st with
    | Seq s0 s1 =>
      simp only [Stmt.check] at h ⊢
      cases h0 : Stmt.check n s0 t with
      | none => simp [h0] at h
      | some r0 =>
        rw [ih h0]; rw [h0] at h
        cases hb : r0.1 with
        | false => simpa [hb] using h
        | true =>
          simp only [hb, Option.bind_eq_bind, Option.some_bind, Bool.not_true,
            Bool.false_eq_true, if_false] at h ⊢
          simp only [Option.pure_def, Option.some_bind] at h ⊢
          exact ih h
    | Decl lhs rhs | Assign lhs rhs =>
      simp only [Stmt.check] at h ⊢
      cases h0 : Exp.infer n rhs t with
      | none => simp [h0] at h
      | some a => rw [exp_infer_succ h0]; rw [h0] at h; exact h
    | IfThenElse c th el =>
      simp only [Stmt.check] at h ⊢
      cases h0 : Exp.infer n c t with
      | none => simp [h0] at h
      | some a =>
        rw [exp_infer_succ h0]; rw [h0] at h
        by_cases ha : a = Ty.TyIllTyped
        · simpa [ha] using h
        · simp only [Option.bind_eq_bind, Option.some_bind, if_neg ha, Option.pure_def] at h ⊢
          cases h1 : Stmt.check n th t with
          | none => simp [h1] at h
          | some r1 =>
            rw [h1] at h
            simp only [Option.some_bind] at h
            cases h2 : Stmt.check n el r1.2 with
            | none => simp [h2] at h
            | some r2 =>
              rw [h2] at h
              rw [ih h1]
              simp only [Option.some_bind]
              rw [ih h2]
              exact h
    | While c body =>
      simp only [Stmt.check] at h ⊢
      cases h0 : Exp.infer n c t with
      | none => simp [h0] at h
      | some a =>
        rw [exp_infer_succ h0]; rw [h0] at h
        by_cases ha : a = Ty.TyIllTyped
        · simpa [ha] using h
        · simp only [Option.bind_eq_bind, Option.some_bind, if_neg ha, Option.pure_def] at h ⊢
          exact ih h

theorem stmt_check_mono {n m : Nat} {st : Stmt} {t : TyState} {r : Bool × TyState}
    (h : Stmt.check n st t = some r) (hnm : n ≤ m) : Stmt.check m st t = some r := by
  induction hnm with
  | refl => exact h
  | step _ ih => exact stmt_check_succ ih

/-! ## Checking of conditionals and sequences (C11, C12) -/

/-- C11 (counterexample): in the empty environment the else-branch `y := x`
alone fails to check, `x` being undeclared, but the conditional
`if true {x := 1} else {y := x}` checks successfully: its else-branch is
checked in the environment the then-branch left, where `x` is an `Int`. -/
theorem ifThenElse_check_else_sees_then :
    Stmt.checksTo (Stmt.Decl "y" (Exp.Var "x")) emptyTy false emptyTy ∧
      (¬ ∃ T1, Stmt.checksTo (Stmt.Decl "y" (Exp.Var "x")) emptyTy true T1) ∧
      Stmt.checksTo
        (Stmt.IfThenElse (Exp.Bool true) (Stmt.Decl "x" (Exp.Num 1))
          (Stmt.Decl "y" (Exp.Var "x")))
        emptyTy true (update (update emptyTy "x" Ty.TyInt) "y" Ty.TyInt) := by
  refine ⟨⟨2, rfl⟩, ?_, ⟨3, rfl⟩⟩
  rintro ⟨T1, n, hn⟩
  rcases n with _ | _ | n
  · simp [Stmt.check] at hn
  · simp [Stmt.check, Exp.infer] at hn
  · simp [Stmt.check, Exp.infer, emptyTy] at hn

/-- C11 (amended): `check` of a conditional returns `false` and leaves `T`,
no branch being checked, when the condition infers `IllTyped`; otherwise it
checks the then-branch in `T`, then the else-branch in the environment `T1`
that the then-branch left, whatever the then-branch returned, and returns the
conjunction of the two flags with the environment the else-branch left. -/
theorem ifThenElse_check_threads (T : TyState) (c : Exp) (t e : Stmt) :
    ∀ b T2, Stmt.checksTo (Stmt.IfThenElse c t e) T b T2 ↔
      (Exp.infersTo c T Ty.TyIllTyped ∧ b = false ∧ T2 = T) ∨
      (∃ ty bt T1 be, Exp.infersTo c T ty ∧ ty ≠ Ty.TyIllTyped ∧
        Stmt.checksTo t T bt T1 ∧ Stmt.checksTo e T1 be T2 ∧ b = (bt && be)) := by
  intro b T2
  constructor
  · rintro ⟨m, hm⟩
    rcases m with _ | m
    · simp [Stmt.check] at hm
    · simp only [Stmt.check] at hm
      cases h0 : Exp.infer m c T with
      | none => simp [h0] at hm
      | some ty =>
        rw [h0] at hm
        by_cases hty : ty = Ty.TyIllTyped
        · left
          simp only [Option.bind_eq_bind, Option.some_bind, if_pos hty, Option.pure_def,
            Option.some.injEq, Prod.mk.injEq] at hm
          exact ⟨⟨m, by rw [h0, hty]⟩, hm.1.symm, hm.2.symm⟩
        · right
          simp only [Option.bind_eq_bind, Option.some_bind, if_neg hty, Option.pure_def] at hm
          cases h1 : Stmt.check m t T with
          | none => simp [h1] at hm
          | some r1 =>
            rw [h1] at hm
            simp only [Option.some_bind] at hm
            cases h2 : Stmt.check m e r1.2 with
            | none => simp [h2] at hm
            | some r2 =>
              rw [h2] at hm
              simp only [Option.some_bind, Option.some.injEq, Prod.mk.injEq] at hm
              refine ⟨ty, r1.1, r1.2, r2.1, ⟨m, h0⟩, hty, ⟨m, h1⟩, ⟨m, ?_⟩, hm.1.symm⟩
              rw [h2, ← hm.2]
  · rintro (⟨⟨k, hk⟩, rfl, rfl⟩ | ⟨ty, bt, T1, be, ⟨k0, h0⟩, hty, ⟨k1, h1⟩, ⟨k2, h2⟩, rfl⟩)
    · exact ⟨k + 1, by simp [Stmt.check, hk]⟩
    · refine ⟨max k0 (max k1 k2) + 1, ?_⟩
      have a0 := exp_infer_mono h0 (Nat.le_max_left k0 (max k1 k2))
      have a1 := stmt_check_mono h1
        (le_trans (Nat.le_max_left k1 k2) (Nat.le_max_right k0 (max k1 k2)))
      have a2 := stmt_check_mono h2
        (le_trans (Nat.le_max_right k1 k2) (Nat.le_max_right k0 (max k1 k2)))
      simp [Stmt.check, a0, hty, a1, a2]

/-- C12: `check` of a sequence returns `false` with the environment left by `s1`,
`s2` not being checked, when `s1` fails; otherwise it returns what `s2` returns
when checked in the environment `T1` left by `s1`.  So it returns `true`
exactly when `s1` succeeds and `s2` succeeds in `T1`; the sequence
`x := (2*2); x = true` of `ex7` succeeds and leaves `x` a `Bool`. -/
theorem seq_check_threads (T : TyState) (s1 s2 : Stmt) :
    (∀ b T2, Stmt.checksTo (Stmt.Seq s1 s2) T b T2 ↔
        (b = false ∧ Stmt.checksTo s1 T false T2) ∨
        (∃ T1, Stmt.checksTo s1 T true T1 ∧ Stmt.checksTo s2 T1 b T2)) ∧
      (∀ T2, Stmt.checksTo (Stmt.Seq s1 s2) T true T2 ↔
        ∃ T1, Stmt.checksTo s1 T true T1 ∧ Stmt.checksTo s2 T1 true T2) ∧
      Stmt.checksTo
        (Stmt.Seq (Stmt.Decl "x" (Exp.Mult (Exp.Num 2) (Exp.Num 2)))
          (Stmt.Assign "x" (Exp.Bool true)))
        emptyTy true (update (update emptyTy "x" Ty.TyInt) "x" Ty.TyBool) := by
  have main : ∀ b T2, Stmt.checksTo (Stmt.Seq s1 s2) T b T2 ↔
      (b = false ∧ Stmt.checksTo s1 T false T2) ∨
      (∃ T1, Stmt.checksTo s1 T true T1 ∧ Stmt.checksTo s2 T1 b T2) := by
    intro b T2
    constructor
    · rintro ⟨m, hm⟩
      rcases m with _ | m
      · simp [Stmt.check] at hm
      · simp only [Stmt.check] at hm
        cases h0 : Stmt.check m s1 T with
        | none => simp [h0] at hm
        | some r0 =>
          obtain ⟨b0, T1⟩ := r0
          rw [h0] at hm
          cases b0 with
          | false =>
            left
            simp only [Option.bind_eq_bind, Option.some_bind, Bool.not_false, if_true,
              Option.pure_def, Option.some.injEq, Prod.mk.injEq] at hm
            exact ⟨hm.1.symm, ⟨m, by rw [h0, hm.2]⟩⟩
          | true =>
            right
            simp only [Option.bind_eq_bind, Option.some_bind, Bool.not_true,
              Bool.false_eq_true, if_false, Option.pure_def] at hm
            exact ⟨T1, ⟨m, h0⟩, ⟨m, hm⟩⟩
    · rintro (⟨rfl, ⟨k, hk⟩⟩ | ⟨T1, ⟨k1, h1⟩, ⟨k2, h2⟩⟩)
      · exact ⟨k + 1, by simp [Stmt.check, hk]⟩
      · refine ⟨max k1 k2 + 1, ?_⟩
        have a1 := stmt_check_mono h1 (Nat.le_max_left k1 k2)
        have a2 := stmt_check_mono h2 (Nat.le_max_right k1 k2)
        simp [Stmt.check, a1, a2]
  refine ⟨main, fun T2 => ?_, ⟨4, rfl⟩⟩
  rw [main]
  simp

/-! ## Inference of operators (C13, C14, C15, C16) -/

theorem exp_infersTo_det {e : Exp} {t : TyState} {ty ty1 : Ty}
    (h1 : Exp.infersTo e t ty) (h2 : Exp.infersTo e t ty1) : ty = ty1 := by
  obtain ⟨n, hn⟩ := h1
  obtain ⟨m, hm⟩ := h2
  exact exp_infer_det hn hm

/-- Both operands of a binary node inferred with a common amount of fuel. -/
theorem exp_infersTo_pair {e1 e2 : Exp} {t : TyState} {t1 t2 : Ty}
    (h1 : Exp.infersTo e1 t t1) (h2 : Exp.infersTo e2 t t2) :
    ∃ n, Exp.infer n e1 t = some t1 ∧ Exp.infer n e2 t = some t2 := by
  obtain ⟨n, hn⟩ := h1
  obtain ⟨m, hm⟩ := h2
  exact ⟨max n m, exp_infer_mono hn (Nat.le_max_left n m),
    exp_infer_mono hm (Nat.le_max_right n m)⟩

theorem groupFree_infer_total (T : TyState) (e : Exp) (hg : hasGroup e = false) :
    ∃ ty, Exp.infersTo e T ty := by
  induction e with
  | Bool x => exact ⟨Ty.TyBool, 1, rfl⟩
  | Num x => exact ⟨Ty.TyInt, 1, rfl⟩
  | Var x =>
    cases hx : T x with
    | none => exact ⟨Ty.TyIllTyped, 1, by simp [Exp.infer, hx]⟩
    | some ty => exact ⟨ty, 1, by simp [Exp.infer, hx]⟩
  | Group e _ => simp [hasGroup] at hg
  | Negate e ih =>
    simp only [hasGroup] at hg
    obtain ⟨t1, n, hn⟩ := ih hg
    by_cases h : t1 = Ty.TyBool
    · exact ⟨Ty.TyBool, n + 1, by simp [Exp.infer, hn, h]⟩
    · exact ⟨Ty.TyIllTyped, n + 1, by simp [Exp.infer, hn, h]⟩
  | Mult e0 e1 ih0 ih1 | Plus e0 e1 ih0 ih1 | And e0 e1 ih0 ih1 | Or e0 e1 ih0 ih1
  | Equals e0 e1 ih0 ih1 | Lesser e0 e1 ih0 ih1 =>
    simp only [hasGroup, Bool.or_eq_false_iff] at hg
    obtain ⟨t1, h1⟩ := ih0 hg.1
    obtain ⟨t2, h2⟩ := ih1 hg.2
    obtain ⟨n, hn1, hn2⟩ := exp_infersTo_pair h1 h2
    refine Exists.imp (fun ty hty => ⟨n + 1, hty⟩) ?_
    simp only [Exp.infer, hn1, hn2, Option.bind_eq_bind, Option.some_bind]
    split_ifs <;> exact ⟨_, rfl⟩

theorem groupFree_illTyped_propagates (T : TyState) (e d : Exp) (hg : hasGroup e = false)
    (hd : d ∈ subExps e) (hi : Exp.infersTo d T Ty.TyIllTyped) :
    Exp.infersTo e T Ty.TyIllTyped := by
  induction e with
  | Bool x => simp only [subExps, List.mem_singleton] at hd; rw [← hd]; exact hi
  | Num x => simp only [subExps, List.mem_singleton] at hd; rw [← hd]; exact hi
  | Var x => simp only [subExps, List.mem_singleton] at hd; rw [← hd]; exact hi
  | Group e _ => simp [hasGroup] at hg
  | Negate e ih =>
    simp only [hasGroup] at hg
    simp only [subExps, List.mem_cons] at hd
    rcases hd with hd | hd
    · rw [← hd]; exact hi
    · obtain ⟨n, hn⟩ := ih hg hd
      exact ⟨n + 1, by simp [Exp.infer, hn]⟩
  | Mult e0 e1 ih0 ih1 | Plus e0 e1 ih0 ih1 | And e0 e1 ih0 ih1 | Or e0 e1 ih0 ih1
  | Equals e0 e1 ih0 ih1 | Lesser e0 e1 ih0 ih1 =>
    simp only [hasGroup, Bool.or_eq_false_iff] at hg
    simp only [subExps, List.mem_cons, List.mem_append] at hd
    rcases hd with hd | hd | hd
    · rw [← hd]; exact hi
    · obtain ⟨t2, h2⟩ := groupFree_infer_total T e1 hg.2
      obtain ⟨n, hn1, hn2⟩ := exp_infersTo_pair (ih0 hg.1 hd) h2
      exact ⟨n + 1, by simp [Exp.infer, hn1, hn2]⟩
    · obtain ⟨t1, h1⟩ := groupFree_infer_total T e0 hg.1
      obtain ⟨n, hn1, hn2⟩ := exp_infersTo_pair h1 (ih1 hg.2 hd)
      exact ⟨n + 1, by simp [Exp.infer, hn1, hn2]⟩

/-- C13 (the code breaks the claim): the sub-expression `(1+true)` infers
`IllTyped` in the empty environment, but `infer` of `group((1+true))` returns
no type at all, `IllTyped` included: `Group.infer` calls itself on its own
receiver.  The same holds one level up, for `not group((1+true))`.  In an
expression without a `Group` node the propagation holds: when a sub-expression
at any depth infers `IllTyped`, so does the expression. -/
theorem group_blocks_illTyped_propagation :
    Exp.infersTo (Exp.Plus (Exp.Num 1) (Exp.Bool true)) emptyTy Ty.TyIllTyped ∧
      (¬ ∃ ty, Exp.infersTo (Exp.Group (Exp.Plus (Exp.Num 1) (Exp.Bool true))) emptyTy ty) ∧
      (¬ ∃ ty, Exp.infersTo
        (Exp.Negate (Exp.Group (Exp.Plus (Exp.Num 1) (Exp.Bool true)))) emptyTy ty) ∧
      (∀ (T : TyState) (e d : Exp), hasGroup e = false → d ∈ subExps e →
        Exp.infersTo d T Ty.TyIllTyped → Exp.infersTo e T Ty.TyIllTyped) := by
  refine ⟨⟨2, by decide⟩, ?_, ?_, fun T e d hg hd hi =>
    groupFree_illTyped_propagates T e d hg hd hi⟩
  · rintro ⟨ty, n, hn⟩
    rw [exp_infer_group_none] at hn
    exact absurd hn (by simp)
  · rintro ⟨ty, n, hn⟩
    rcases n with _ | n
    · simp [Exp.infer] at hn
    · simp [Exp.infer, exp_infer_group_none] at hn

/-- The nodes `Plus`, `Mult` and `Lesser` share one `infer` body: the node
returns a type exactly when both operands do, `Int` for two `Int`s and
`IllTyped` otherwise. -/
theorem int_operator_infer_iff (T : TyState) (e1 e2 : Exp) (ty : Ty) :
    (Exp.infersTo (Exp.Plus e1 e2) T ty ↔
        ∃ t1 t2, Exp.infersTo e1 T t1 ∧ Exp.infersTo e2 T t2 ∧
          ty = if t1 = Ty.TyInt ∧ t2 = Ty.TyInt then Ty.TyInt else Ty.TyIllTyped) ∧
      (Exp.infersTo (Exp.Mult e1 e2) T ty ↔
        ∃ t1 t2, Exp.infersTo e1 T t1 ∧ Exp.infersTo e2 T t2 ∧
          ty = if t1 = Ty.TyInt ∧ t2 = Ty.TyInt then Ty.TyInt else Ty.TyIllTyped) ∧
      (Exp.infersTo (Exp.Lesser e1 e2) T ty ↔
        ∃ t1 t2, Exp.infersTo e1 T t1 ∧ Exp.infersTo e2 T t2 ∧
          ty = if t1 = Ty.TyInt ∧ t2 = Ty.TyInt then Ty.TyInt else Ty.TyIllTyped) := by
  refine ⟨⟨?_, ?_⟩, ⟨?_, ?_⟩, ⟨?_, ?_⟩⟩
  all_goals first
    | (rintro ⟨m, hm⟩
       rcases m with _ | m
       · simp [Exp.infer] at hm
       · simp only [Exp.infer] at hm
         cases h0 : Exp.infer m e1 T with
         | none => simp [h0] at hm
         | some a =>
           cases h1 : Exp.infer m e2 T with
           | none => simp [h0, h1] at hm
           | some b =>
             rw [h0, h1] at hm
             refine ⟨a, b, ⟨m, h0⟩, ⟨m, h1⟩, ?_⟩
             simp only [Option.bind_eq_bind, Option.some_bind] at hm
             split_ifs at hm ⊢ <;> exact (Option.some.inj hm).symm)
    | (rintro ⟨t1, t2, h1, h2, rfl⟩
       obtain ⟨n, hn1, hn2⟩ := exp_infersTo_pair h1 h2
       refine ⟨n + 1, ?_⟩
       simp only [Exp.infer, hn1, hn2, Option.bind_eq_bind, Option.some_bind]
       split_ifs <;> rfl)

/-- C14 (counterexample): `group(1)` infers no type, `Int` included, so the
operands of `Plus(group(1), 1)` and `Mult(group(1), 1)` do not both infer
`Int`; yet the nodes infer no type at all, `IllTyped` included, since
`Plus.infer` and `Mult.infer` infer both operands before they inspect either. -/
theorem plus_mult_group_no_type :
    (¬ ∃ ty, Exp.infersTo (Exp.Group (Exp.Num 1)) emptyTy ty) ∧
      Exp.infersTo (Exp.Num 1) emptyTy Ty.TyInt ∧
      (¬ ∃ ty, Exp.infersTo (Exp.Plus (Exp.Group (Exp.Num 1)) (Exp.Num 1)) emptyTy ty) ∧
      ¬ ∃ ty, Exp.infersTo (Exp.Mult (Exp.Group (Exp.Num 1)) (Exp.Num 1)) emptyTy ty := by
  refine ⟨?_, ⟨1, rfl⟩, ?_, ?_⟩
  · rintro ⟨ty, n, hn⟩
    rw [exp_infer_group_none] at hn
    exact absurd hn (by simp)
  · rintro ⟨ty, n, hn⟩
    rcases n with _ | n
    · simp [Exp.infer] at hn
    · simp [Exp.infer, exp_infer_group_none] at hn
  · rintro ⟨ty, n, hn⟩
    rcases n with _ | n
    · simp [Exp.infer] at hn
    · simp [Exp.infer, exp_infer_group_none] at hn

/-- C14 (amended): for all `e1`, `e2`, `Plus` and `Mult` infer `Int` exactly
when both operands infer `Int`; they infer some type exactly when both operands
do, and then `IllTyped` in every case other than two `Int`s; `(1+true)`
infers `IllTyped` in the empty environment. -/
theorem plus_mult_infer_of_operands (T : TyState) (e1 e2 : Exp) :
    (Exp.infersTo (Exp.Plus e1 e2) T Ty.TyInt ↔
        Exp.infersTo e1 T Ty.TyInt ∧ Exp.infersTo e2 T Ty.TyInt) ∧
      (Exp.infersTo (Exp.Mult e1 e2) T Ty.TyInt ↔
        Exp.infersTo e1 T Ty.TyInt ∧ Exp.infersTo e2 T Ty.TyInt) ∧
      (∀ t1 t2, Exp.infersTo e1 T t1 → Exp.infersTo e2 T t2 →
        ¬ (t1 = Ty.TyInt ∧ t2 = Ty.TyInt) →
        Exp.infersTo (Exp.Plus e1 e2) T Ty.TyIllTyped ∧
        Exp.infersTo (Exp.Mult e1 e2) T Ty.TyIllTyped) ∧
      (∀ ty, Exp.infersTo (Exp.Plus e1 e2) T ty ↔
        ∃ t1 t2, Exp.infersTo e1 T t1 ∧ Exp.infersTo e2 T t2 ∧
          ty = if t1 = Ty.TyInt ∧ t2 = Ty.TyInt then Ty.TyInt else Ty.TyIllTyped) ∧
      (∀ ty, Exp.infersTo (Exp.Mult e1 e2) T ty ↔
        ∃ t1 t2, Exp.infersTo e1 T t1 ∧ Exp.infersTo e2 T t2 ∧
          ty = if t1 = Ty.TyInt ∧ t2 = Ty.TyInt then Ty.TyInt else Ty.TyIllTyped) ∧
      Exp.infersTo (Exp.Plus (Exp.Num 1) (Exp.Bool true)) emptyTy Ty.TyIllTyped := by
  have hp := fun ty => (int_operator_infer_iff T e1 e2 ty).1
  have hm := fun ty => (int_operator_infer_iff T e1 e2 ty).2.1
  refine ⟨?_, ?_, fun t1 t2 h1 h2 hne => ⟨?_, ?_⟩, hp, hm, ⟨2, by decide⟩⟩
  · rw [hp]
    constructor
    · rintro ⟨t1, t2, h1, h2, h⟩
      by_cases hc : t1 = Ty.TyInt ∧ t2 = Ty.TyInt
      · rw [hc.1] at h1; rw [hc.2] at h2; exact ⟨h1, h2⟩
      · rw [if_neg hc] at h; exact absurd h (by decide)
    · rintro ⟨h1, h2⟩
      exact ⟨Ty.TyInt, Ty.TyInt, h1, h2, by simp⟩
  · rw [hm]
    constructor
    · rintro ⟨t1, t2, h1, h2, h⟩
      by_cases hc : t1 = Ty.TyInt ∧ t2 = Ty.TyInt
      · rw [hc.1] at h1; rw [hc.2] at h2; exact ⟨h1, h2⟩
      · rw [if_neg hc] at h; exact absurd h (by decide)
    · rintro ⟨h1, h2⟩
      exact ⟨Ty.TyInt, Ty.TyInt, h1, h2, by simp⟩
  · rw [hp]; exact ⟨t1, t2, h1, h2, by rw [if_neg hne]⟩
  · rw [hm]; exact ⟨t1, t2, h1, h2, by rw [if_neg hne]⟩

/-- C14 (witness): `(1+2)` and `(1*2)` infer `Int` in the empty environment,
and `(1+true)` infers `IllTyped`. -/
theorem plus_mult_infer_of_operands_witness :
    Exp.infersTo (Exp.Num 1) emptyTy Ty.TyInt ∧
      Exp.infersTo (Exp.Num 2) emptyTy Ty.TyInt ∧
      Exp.infersTo (Exp.Plus (Exp.Num 1) (Exp.Num 2)) emptyTy Ty.TyInt ∧
      Exp.infersTo (Exp.Mult (Exp.Num 1) (Exp.Num 2)) emptyTy Ty.TyInt ∧
      Exp.infersTo (Exp.Plus (Exp.Num 1) (Exp.Bool true)) emptyTy Ty.TyIllTyped :=
  ⟨⟨1, rfl⟩, ⟨1, rfl⟩,
    (plus_mult_infer_of_operands emptyTy (Exp.Num 1) (Exp.Num 2)).1.mpr ⟨⟨1, rfl⟩, ⟨1, rfl⟩⟩,
    (plus_mult_infer_of_operands emptyTy (Exp.Num 1) (Exp.Num 2)).2.1.mpr ⟨⟨1, rfl⟩, ⟨1, rfl⟩⟩,
    ((plus_mult_infer_of_operands emptyTy (Exp.Num 1) (Exp.Bool true)).2.2.1 Ty.TyInt Ty.TyBool
      ⟨1, rfl⟩ ⟨1, rfl⟩ (by decide)).1⟩

/-- C15 (counterexample): `group(1)` infers no type, `Int` included, so the
operands of `Lesser(group(1), 1)` do not both infer `Int`; yet the node infers
no type at all, `IllTyped` included, since `Lesser.infer` infers both operands
before it inspects either. -/
theorem lesser_group_no_type :
    (¬ ∃ ty, Exp.infersTo (Exp.Group (Exp.Num 1)) emptyTy ty) ∧
      Exp.infersTo (Exp.Num 1) emptyTy Ty.TyInt ∧
      ¬ ∃ ty, Exp.infersTo (Exp.Lesser (Exp.Group (Exp.Num 1)) (Exp.Num 1)) emptyTy ty := by
  refine ⟨?_, ⟨1, rfl⟩, ?_⟩
  · rintro ⟨ty, n, hn⟩
    rw [exp_infer_group_none] at hn
    exact absurd hn (by simp)
  · rintro ⟨ty, n, hn⟩
    rcases n with _ | n
    · simp [Exp.infer] at hn
    · simp [Exp.infer, exp_infer_group_none] at hn

/-- C15 (amended): for all `e1`, `e2`, `Lesser` infers `Int` exactly when both
operands infer `Int`, and never `Bool`; it infers some type exactly when both
operands do, and then `IllTyped` in every case other than two `Int`s; when the
operands evaluate to the Integers `v1` and `v2`, the node evaluates to the
Boolean of `v1.valI < v2.valI`. -/
theorem lesser_infer_int_eval_bool (T : TyState) (S : ValState) (e1 e2 : Exp) :
    (Exp.infersTo (Exp.Lesser e1 e2) T Ty.TyInt ↔
        Exp.infersTo e1 T Ty.TyInt ∧ Exp.infersTo e2 T Ty.TyInt) ∧
      (¬ Exp.infersTo (Exp.Lesser e1 e2) T Ty.TyBool) ∧
      (∀ t1 t2, Exp.infersTo e1 T t1 → Exp.infersTo e2 T t2 →
        ¬ (t1 = Ty.TyInt ∧ t2 = Ty.TyInt) →
        Exp.infersTo (Exp.Lesser e1 e2) T Ty.TyIllTyped) ∧
      (∀ ty, Exp.infersTo (Exp.Lesser e1 e2) T ty ↔
        ∃ t1 t2, Exp.infersTo e1 T t1 ∧ Exp.infersTo e2 T t2 ∧
          ty = if t1 = Ty.TyInt ∧ t2 = Ty.TyInt then Ty.TyInt else Ty.TyIllTyped) ∧
      (∀ v1 v2, Exp.evalsTo e1 S v1 → Exp.evalsTo e2 S v2 →
        v1.flag = Kind.ValueInt → v2.flag = Kind.ValueInt →
        Exp.evalsTo (Exp.Lesser e1 e2) S (mkBool (decide (v1.valI < v2.valI)))) := by
  have hl := fun ty => (int_operator_infer_iff T e1 e2 ty).2.2
  refine ⟨?_, ?_, fun t1 t2 h1 h2 hne => ?_, hl, fun v1 v2 hv1 hv2 hf1 hf2 => ?_⟩
  · rw [hl]
    constructor
    · rintro ⟨t1, t2, h1, h2, h⟩
      by_cases hc : t1 = Ty.TyInt ∧ t2 = Ty.TyInt
      · rw [hc.1] at h1; rw [hc.2] at h2; exact ⟨h1, h2⟩
      · rw [if_neg hc] at h; exact absurd h (by decide)
    · rintro ⟨h1, h2⟩
      exact ⟨Ty.TyInt, Ty.TyInt, h1, h2, by simp⟩
  · rw [hl]
    rintro ⟨t1, t2, h1, h2, h⟩
    by_cases hc : t1 = Ty.TyInt ∧ t2 = Ty.TyInt
    · rw [if_pos hc] at h; exact absurd h (by decide)
    · rw [if_neg hc] at h; exact absurd h (by decide)
  · rw [hl]; exact ⟨t1, t2, h1, h2, by rw [if_neg hne]⟩
  · obtain ⟨m, hm1, hm2⟩ := exp_evalsTo_pair hv1 hv2
    exact ⟨m + 1, by simp [Exp.eval, hm1, hm2, hf1, hf2]⟩

/-- C15 (witness): `lesser(number(2), number(4))` of `ex5` infers `Int` and
evaluates to `Boolean(true)`. -/
theorem lesser_infer_int_eval_bool_witness :
    Exp.infersTo (Exp.Num 2) emptyTy Ty.TyInt ∧
      Exp.evalsTo (Exp.Num 4) emptyVal (mkInt 4) ∧
      Exp.infersTo (Exp.Lesser (Exp.Num 2) (Exp.Num 4)) emptyTy Ty.TyInt ∧
      Exp.evalsTo (Exp.Lesser (Exp.Num 2) (Exp.Num 4)) emptyVal (mkBool true) :=
  ⟨⟨1, rfl⟩, ⟨1, rfl⟩,
    (lesser_infer_int_eval_bool emptyTy emptyVal (Exp.Num 2) (Exp.Num 4)).1.mpr
      ⟨⟨1, rfl⟩, ⟨1, rfl⟩⟩,
    (lesser_infer_int_eval_bool emptyTy emptyVal (Exp.Num 2) (Exp.Num 4)).2.2.2.2
      (mkInt 2) (mkInt 4) ⟨1, rfl⟩ ⟨1, rfl⟩ rfl rfl⟩

/-- C16 (the code breaks the claim): for every `e`, `eval` and `infer` of
`Group(e)` return for no amount of fuel, each calling itself on the `Group`
node; `lesser(number(6), number(4))` alone evaluates to `Boolean(false)` and
infers `Int`, which `group(lesser(number(6), number(4)))` of `ex10` never
returns. -/
theorem group_never_returns (n : Nat) (e : Exp) (S : ValState) (T : TyState) :
    Exp.eval n (Exp.Group e) S = none ∧
      Exp.infer n (Exp.Group e) T = none ∧
      Exp.eval 2 (Exp.Lesser (Exp.Num 6) (Exp.Num 4)) emptyVal = some (mkBool false) ∧
      Exp.infer 2 (Exp.Lesser (Exp.Num 6) (Exp.Num 4)) emptyTy = some Ty.TyInt ∧
      Exp.eval n (Exp.Group (Exp.Lesser (Exp.Num 6) (Exp.Num 4))) emptyVal = none ∧
      Exp.infer n (Exp.Group (Exp.Lesser (Exp.Num 6) (Exp.Num 4))) emptyTy = none :=
  ⟨exp_eval_group_none n e S, exp_infer_group_none n e T, by decide, by decide,
    exp_eval_group_none n _ emptyVal, exp_infer_group_none n _ emptyTy⟩

/-! ## Type preservation on the literal fragment (C19) -/

theorem fragment_preservation_fuel (T : TyState) (S : ValState) (n : Nat) (e : Exp) (ty : Ty)
    (hf : literalFragment e = true) (hi : Exp.infer n e T = some ty)
    (hne : ty ≠ Ty.TyIllTyped) : ∃ v, Exp.eval n e S = some v ∧ v.flag = ty.kind := by
  induction n generalizing e ty with
  | zero => simp [Exp.infer] at hi
  | succ n ih =>
    cases e with
    | Bool x =>
      simp only [Exp.infer, Option.some.injEq] at hi
      subst hi
      exact ⟨mkBool x, rfl, rfl⟩
    | Num x =>
      simp only [Exp.infer, Option.some.injEq] at hi
      subst hi
      exact ⟨mkInt x, rfl, rfl⟩
    | Var x => simp [literalFragment] at hf
    | Group e => simp [literalFragment] at hf
    | Lesser e0 e1 => simp [literalFragment] at hf
    | Negate e =>
      simp only [literalFragment] at hf
      simp only [Exp.infer] at hi
      cases h0 : Exp.infer n e T with
      | none => simp [h0] at hi
      | some t1 =>
        rw [h0] at hi
        cases t1 <;> simp at hi <;> try exact absurd hi.symm hne
        subst hi
        obtain ⟨v1, hv1, hf1⟩ := ih e Ty.TyBool hf h0 (by decide)
        simp only [Ty.kind] at hf1
        exact ⟨mkBool (!v1.valB), by simp [Exp.eval, hv1, hf1], rfl⟩
    | Mult e0 e1 | Plus e0 e1 =>
      simp only [literalFragment, Bool.and_eq_true] at hf
      simp only [Exp.infer] at hi
      cases h0 : Exp.infer n e0 T with
      | none => simp [h0] at hi
      | some t1 =>
        cases h1 : Exp.infer n e1 T with
        | none => simp [h0, h1] at hi
        | some t2 =>
          rw [h0, h1] at hi
          cases t1 <;> cases t2 <;> simp at hi <;> try exact absurd hi.symm hne
          subst hi
          obtain ⟨v1, hv1, hf1⟩ := ih e0 Ty.TyInt hf.1 h0 (by decide)
          obtain ⟨v2, hv2, hf2⟩ := ih e1 Ty.TyInt hf.2 h1 (by decide)
          simp only [Ty.kind] at hf1 hf2
          simp [Exp.eval, hv1, hv2, hf1, hf2, Ty.kind, mkInt]
    | And e0 e1 | Or e0 e1 =>
      simp only [literalFragment, Bool.and_eq_true] at hf
      simp only [Exp.infer] at hi
      cases h0 : Exp.infer n e0 T with
      | none => simp [h0] at hi
      | some t1 =>
        cases h1 : Exp.infer n e1 T with
        | none => simp [h0, h1] at hi
        | some t2 =>
          rw [h0, h1] at hi
          cases t1 <;> cases t2 <;> simp at hi <;> try exact absurd hi.symm hne
          subst hi
          obtain ⟨v1, hv1, hf1⟩ := ih e0 Ty.TyBool hf.1 h0 (by decide)
          obtain ⟨v2, hv2, hf2⟩ := ih e1 Ty.TyBool hf.2 h1 (by decide)
          simp only [Ty.kind] at hf1 hf2
          cases hb : v1.valB <;> simp [Exp.eval, hv1, hv2, hf1, hf2, hb, Ty.kind, mkBool]
    | Equals e0 e1 =>
      simp only [literalFragment, Bool.and_eq_true] at hf
      simp only [Exp.infer] at hi
      cases h0 : Exp.infer n e0 T with
      | none => simp [h0] at hi
      | some t1 =>
        cases h1 : Exp.infer n e1 T with
        | none => simp [h0, h1] at hi
        | some t2 =>
          rw [h0, h1] at hi
          cases t1 <;> cases t2 <;> simp at hi <;> try exact absurd hi.symm hne
          · subst hi
            obtain ⟨v1, hv1, hf1⟩ := ih e0 Ty.TyInt hf.1 h0 (by decide)
            obtain ⟨v2, hv2, hf2⟩ := ih e1 Ty.TyInt hf.2 h1 (by decide)
            simp only [Ty.kind] at hf1 hf2
            simp [Exp.eval, hv1, hv2, hf1, hf2, Ty.kind, mkBool]
          · subst hi
            obtain ⟨v1, hv1, hf1⟩ := ih e0 Ty.TyBool hf.1 h0 (by decide)
            obtain ⟨v2, hv2, hf2⟩ := ih e1 Ty.TyBool hf.2 h1 (by decide)
            simp only [Ty.kind] at hf1 hf2
            simp [Exp.eval, hv1, hv2, hf1, hf2, Ty.kind, mkBool]

/-- C19: for an expression of the literal fragment (`Bool` and `Num`
literals, `Negate`, `Mult`, `Plus`, `And`, `Or`, `Equals`) that infers `ty`,
evaluation returns in every environment: an Integer if `ty` is `Int`, a
Boolean if `ty` is `Bool`; so no value it evaluates to is `Undefined` unless
`ty` is `IllTyped`. -/
theorem fragment_type_preservation (e : Exp) (T : TyState) (S : ValState) (ty : Ty)
    (hf : literalFragment e = true) (hi : Exp.infersTo e T ty) :
    (ty = Ty.TyInt → ∃ v, Exp.evalsTo e S v ∧ v.flag = Kind.ValueInt) ∧
      (ty = Ty.TyBool → ∃ v, Exp.evalsTo e S v ∧ v.flag = Kind.ValueBool) ∧
      (ty ≠ Ty.TyIllTyped → ∀ v, Exp.evalsTo e S v → v.flag ≠ Kind.Undefined) := by
  obtain ⟨n, hn⟩ := hi
  refine ⟨fun h => ?_, fun h => ?_, fun h v hv => ?_⟩
  · obtain ⟨v, hv, hk⟩ := fragment_preservation_fuel T S n e ty hf hn (by rw [h]; decide)
    exact ⟨v, ⟨n, hv⟩, by rw [hk, h]; rfl⟩
  · obtain ⟨v, hv, hk⟩ := fragment_preservation_fuel T S n e ty hf hn (by rw [h]; decide)
    exact ⟨v, ⟨n, hv⟩, by rw [hk, h]; rfl⟩
  · obtain ⟨w, hw, hk⟩ := fragment_preservation_fuel T S n e ty hf hn h
    have hvw : v = w := exp_evalsTo_det hv ⟨n, hw⟩
    rw [hvw, hk]
    cases ty with
    | TyIllTyped => exact absurd rfl h
    | TyInt => decide
    | TyBool => decide

/-- C19 (witness): `(1+(2*3))` infers `Int` and evaluates to an Integer. -/
theorem fragment_type_preservation_witness :
    literalFragment (Exp.Plus (Exp.Num 1) (Exp.Mult (Exp.Num 2) (Exp.Num 3))) = true ∧
      Exp.infersTo (Exp.Plus (Exp.Num 1) (Exp.Mult (Exp.Num 2) (Exp.Num 3))) emptyTy Ty.TyInt ∧
      ∃ v, Exp.evalsTo (Exp.Plus (Exp.Num 1) (Exp.Mult (Exp.Num 2) (Exp.Num 3))) emptyVal v ∧
        v.flag = Kind.ValueInt :=
  ⟨rfl, ⟨3, by decide⟩,
    (fragment_type_preservation (Exp.Plus (Exp.Num 1) (Exp.Mult (Exp.Num 2) (Exp.Num 3)))
      emptyTy emptyVal Ty.TyInt rfl ⟨3, by decide⟩).1 rfl⟩

/-! ## The type environment never holds `IllTyped` (C20) -/

theorem noIllTyped_update {T : TyState} (hT : TyState.noIllTyped T) (x : String) {ty : Ty}
    (hty : ty ≠ Ty.TyIllTyped) : TyState.noIllTyped (update T x ty) := by
  intro y
  unfold update
  split
  · simpa using hty
  · exact hT y

theorem check_noIllTyped_fuel (n : Nat) (s : Stmt) (T : TyState) (r : Bool × TyState)
    (hT : TyState.noIllTyped T) (h : Stmt.check n s T = some r) : TyState.noIllTyped r.2 := by
  induction n generalizing s T r with
  | zero => simp [Stmt.check] at h
  | succ n ih =>
    cases s with
    | Seq s0 s1 =>
      simp only [Stmt.check] at h
      cases h0 : Stmt.check n s0 T with
      | none => simp [h0] at h
      | some r0 =>
        have hr0 := ih s0 T r0 hT h0
        rw [h0] at h
        cases hb : r0.1 with
        | false =>
          simp only [hb, Option.bind_eq_bind, Option.some_bind, Bool.not_false, if_true,
            Option.pure_def, Option.some.injEq] at h
          rw [← h]; exact hr0
        | true =>
          simp only [hb, Option.bind_eq_bind, Option.some_bind, Bool.not_true,
            Bool.false_eq_true, if_false, Option.pure_def] at h
          exact ih s1 r0.2 r hr0 h
    | Decl lhs rhs | Assign lhs rhs =>
      simp only [Stmt.check] at h
      cases h0 : Exp.infer n rhs T with
      | none => simp [h0] at h
      | some ty =>
        rw [h0] at h
        by_cases hty : ty = Ty.TyIllTyped
        · simp only [Option.bind_eq_bind, Option.some_bind, if_pos hty, Option.pure_def,
            Option.some.injEq] at h
          rw [← h]; exact hT
        · simp only [Option.bind_eq_bind, Option.some_bind, if_neg hty, Option.pure_def,
            Option.some.injEq] at h
          rw [← h]; exact noIllTyped_update hT lhs hty
    | IfThenElse c th el =>
      simp only [Stmt.check] at h
      cases h0 : Exp.infer n c T with
      | none => simp [h0] at h
      | some ty =>
        rw [h0] at h
        by_cases hty : ty = Ty.TyIllTyped
        · simp only [Option.bind_eq_bind, Option.some_bind, if_pos hty, Option.pure_def,
            Option.some.injEq] at h
          rw [← h]; exact hT
        · simp only [Option.bind_eq_bind, Option.some_bind, if_neg hty, Option.pure_def] at h
          cases h1 : Stmt.check n th T with
          | none => simp [h1] at h
          | some r1 =>
            rw [h1] at h
            simp only [Option.some_bind] at h
            cases h2 : Stmt.check n el r1.2 with
            | none => simp [h2] at h
            | some r2 =>
              rw [h2] at h
              simp only [Option.some_bind, Option.some.injEq] at h
              rw [← h]
              exact ih el r1.2 r2 (ih th T r1 hT h1) h2
    | While c body =>
      simp only [Stmt.check] at h
      cases h0 : Exp.infer n c T with
      | none => simp [h0] at h
      | some ty =>
        rw [h0] at h
        by_cases hty : ty = Ty.TyIllTyped
        · simp only [Option.bind_eq_bind, Option.some_bind, if_pos hty, Option.pure_def,
            Option.some.injEq] at h
          rw [← h]; exact hT
        · simp only [Option.bind_eq_bind, Option.some_bind, if_neg hty, Option.pure_def] at h
          exact ih body T r hT h

/-- C20: when no name of `T` is bound to `IllTyped` and `check` of `s` in `T`
returns, with either flag, no name of the environment `T1` it leaves is bound
to `IllTyped`; in `T1` a variable infers `IllTyped` exactly when it is absent.
The empty environment binds no name to `IllTyped`. -/
theorem check_never_stores_illTyped (s : Stmt) (T : TyState) (b : Bool) (T1 : TyState)
    (hT : TyState.noIllTyped T) (h : Stmt.checksTo s T b T1) :
    TyState.noIllTyped T1 ∧
      (∀ x, Exp.infersTo (Exp.Var x) T1 Ty.TyIllTyped ↔ T1 x = none) ∧
      TyState.noIllTyped emptyTy := by
  obtain ⟨n, hn⟩ := h
  have h1 : TyState.noIllTyped T1 := check_noIllTyped_fuel n s T (b, T1) hT hn
  refine ⟨h1, fun x => ⟨?_, fun hx => ⟨1, by simp [Exp.infer, hx]⟩⟩, fun x => by simp [emptyTy]⟩
  rintro ⟨m, hm⟩
  rcases m with _ | m
  · simp [Exp.infer] at hm
  · simp only [Exp.infer] at hm
    cases hx : T1 x with
    | none => rfl
    | some ty =>
      rw [hx] at hm
      simp only [Option.some.injEq] at hm
      rw [hm] at hx
      exact absurd hx (h1 x)

/-- C20 (witness): `x := true` checked in the empty environment leaves an
environment without `IllTyped`. -/
theorem check_never_stores_illTyped_witness :
    TyState.noIllTyped emptyTy ∧
      Stmt.checksTo (Stmt.Decl "x" (Exp.Bool true)) emptyTy true
        (update emptyTy "x" Ty.TyBool) ∧
      TyState.noIllTyped (update emptyTy "x" Ty.TyBool) :=
  ⟨fun x => by simp [emptyTy], ⟨2, rfl⟩,
    (check_never_stores_illTyped (Stmt.Decl "x" (Exp.Bool true)) emptyTy true
      (update emptyTy "x" Ty.TyBool) (fun x => by simp [emptyTy]) ⟨2, rfl⟩).1⟩

/-! ## Pretty printing (C17, C18) -/

theorem exp_pretty_group_none (n : Nat) (e : Exp) : Exp.pretty n (Exp.Group e) = none := by
  induction n with
  | zero => rfl
  | succ n ih => simp [Exp.pretty, ih]

theorem print_pretty_none (n : Nat) (pt : Print) : Print.pretty n pt = none := by
  induction n with
  | zero => rfl
  | succ n ih => simpa [Print.pretty] using ih

theorem exp_pretty_succ {n : Nat} {e : Exp} {p : String}
    (h : Exp.pretty n e = some p) : Exp.pretty (n + 1) e = some p := by
  induction n generalizing e p with
  | zero => simp [Exp.pretty] at h
  | succ n ih =>
    cases e with
    | Bool x => simpa [Exp.pretty] using h
    | Num x => simpa [Exp.pretty] using h
    | Var x => simpa [Exp.pretty] using h
    | Negate e =>
      simp only [Exp.pretty] at h ⊢
      cases h0 : Exp.pretty n e with
      | none => simp [h0] at h
      | some a => rw [ih h0]; rw [h0] at h; exact h
    | Group e => rw [exp_pretty_group_none] at h; exact absurd h (by simp)
    | Mult e0 e1 | Plus e0 e1 | And e0 e1 | Or e0 e1 | Equals e0 e1 | Lesser e0 e1 =>
      simp only [Exp.pretty] at h ⊢
      cases h0 : Exp.pretty n e0 with
      | none => simp [h0] at h
      | some a =>
        cases h1 : Exp.pretty n e1 with
        | none => simp [h0, h1] at h
        | some b => rw [ih h0, ih h1]; rw [h0, h1] at h; exact h

theorem exp_pretty_mono {n m : Nat} {e : Exp} {p : String}
    (h : Exp.pretty n e = some p) (hnm : n ≤ m) : Exp.pretty m e = some p := by
  induction hnm with
  | refl => exact h
  | step _ ih => exact exp_pretty_succ ih

theorem stmt_pretty_succ {n : Nat} {st : Stmt} {p : String}
    (h : Stmt.pretty n st = some p) : Stmt.pretty (n + 1) st = some p := by
  induction n generalizing st p with
  | zero => simp [Stmt.pretty] at h
  | succ n ih =>
    cases st with
    | Seq s0 s1 =>
      simp only [Stmt.pretty] at h ⊢
      cases h0 : Stmt.pretty n s0 with
      | none => simp [h0] at h
      | some a =>
        cases h1 : Stmt.pretty n s1 with
        | none => simp [h0, h1] at h
        | some b => rw [ih h0, ih h1]; rw [h0, h1] at h; exact h
    | Decl lhs rhs | Assign lhs rhs =>
      simp only [Stmt.pretty] at h ⊢
      cases h0 : Exp.pretty n rhs with
      | none => simp [h0] at h
      | some a => rw [exp_pretty_succ h0]; rw [h0] at h; exact h
    | IfThenElse c th el =>
      simp only [Stmt.pretty] at h ⊢
      cases h0 : Exp.pretty n c with
      | none => simp [h0] at h
      | some a =>
        cases h1 : Stmt.pretty n th with
        | none => simp [h0, h1] at h
        | some b =>
          cases h2 : Stmt.pretty n el with
          | none => simp [h0, h1, h2] at h
          | some d =>
            rw [exp_pretty_succ h0, ih h1, ih h2]; rw [h0, h1, h2] at h; exact h
    | While c body =>
      simp only [Stmt.pretty] at h ⊢
      cases h0 : Exp.pretty n c with
      | none => simp [h0] at h
      | some a =>
        cases h1 : Stmt.pretty n body with
        | none => simp [h0, h1] at h
        | some b => rw [exp_pretty_succ h0, ih h1]; rw [h0, h1] at h; exact h

theorem stmt_pretty_mono {n m : Nat} {st : Stmt} {p : String}
    (h : Stmt.pretty n st = some p) (hnm : n ≤ m) : Stmt.pretty m st = some p := by
  induction hnm with
  | refl => exact h
  | step _ ih => exact stmt_pretty_succ ih

theorem stmt_prettyTo_det {st : Stmt} {p q : String}
    (h1 : Stmt.prettyTo st p) (h2 : Stmt.prettyTo st q) : p = q := by
  obtain ⟨n, hn⟩ := h1
  obtain ⟨m, hm⟩ := h2
  have a := stmt_pretty_mono hn (Nat.le_max_left n m)
  have b := stmt_pretty_mono hm (Nat.le_max_right n m)
  rw [a] at b
  exact Option.some.inj b

/-- C17 (the code breaks the claim): for every `e`, `pretty` of `Print(e)`
and `pretty` of `Group(e)` return for no amount of fuel, each calling itself
on its own receiver; `true` alone is rendered as `"true"`, which `pretty` of
`Print(true)` never returns. -/
theorem print_group_pretty_never_return (n : Nat) (e : Exp) :
    Print.pretty n (Print.mk e) = none ∧
      Exp.pretty n (Exp.Group e) = none ∧
      Exp.pretty 1 (Exp.Bool true) = some "true" ∧
      Print.pretty n (Print.mk (Exp.Bool true)) = none ∧
      Exp.pretty n (Exp.Group (Exp.Bool true)) = none :=
  ⟨print_pretty_none n _, exp_pretty_group_none n e, rfl, print_pretty_none n _,
    exp_pretty_group_none n _⟩

/-- C18 (counterexample): the conditional of `ex8` is rendered as
`if(5<4){x := true} else {y := 3}` and the loop on the same condition as
`while(5<4){x := true}`, with no space after the keyword nor before the
opening brace. -/
theorem ifThenElse_pretty_has_no_spaces :
    Exp.pretty 2 (Exp.Lesser (Exp.Num 5) (Exp.Num 4)) = some "(5<4)" ∧
      Stmt.pretty 2 (Stmt.Decl "x" (Exp.Bool true)) = some "x := true" ∧
      Stmt.pretty 2 (Stmt.Decl "y" (Exp.Num 3)) = some "y := 3" ∧
      Stmt.pretty 4
          (Stmt.IfThenElse (Exp.Lesser (Exp.Num 5) (Exp.Num 4)) (Stmt.Decl "x" (Exp.Bool true))
            (Stmt.Decl "y" (Exp.Num 3)))
        = some "if(5<4)\x7bx := true\x7d else \x7by := 3\x7d" ∧
      "if(5<4)\x7bx := true\x7d else \x7by := 3\x7d"
        ≠ "if " ++ "(5<4)" ++ " \x7b" ++ "x := true" ++ "\x7d else \x7b" ++ "y := 3" ++ "\x7d" ∧
      Stmt.pretty 4
          (Stmt.While (Exp.Lesser (Exp.Num 5) (Exp.Num 4)) (Stmt.Decl "x" (Exp.Bool true)))
        = some "while(5<4)\x7bx := true\x7d" ∧
      "while(5<4)\x7bx := true\x7d" ≠ "while " ++ "(5<4)" ++ " \x7b" ++ "x := true" ++ "\x7d" := by
  decide

/-- C18 (amended): when the condition is rendered as `pc` and the statements
`t`, `e`, `b` as `pt`, `pe`, `pb`, the conditional is rendered as `"if"`, `pc`,
an opening brace, `pt`, `"} else {"`, `pe` and a closing brace, and the loop as
`"while"`, `pc`, an opening brace, `pb` and a closing brace, with nothing
between the keyword, the condition and the opening brace. -/
theorem ifThenElse_while_pretty (c : Exp) (t e b : Stmt) (pc pt pe pb : String)
    (hc : Exp.prettyTo c pc) (ht : Stmt.prettyTo t pt) (he : Stmt.prettyTo e pe)
    (hb : Stmt.prettyTo b pb) :
    (∀ p, Stmt.prettyTo (Stmt.IfThenElse c t e) p ↔
        p = "if" ++ pc ++ "\x7b" ++ pt ++ "\x7d else \x7b" ++ pe ++ "\x7d") ∧
      (∀ p, Stmt.prettyTo (Stmt.While c b) p ↔
        p = "while" ++ pc ++ "\x7b" ++ pb ++ "\x7d") := by
  obtain ⟨kc, hkc⟩ := hc
  obtain ⟨kt, hkt⟩ := ht
  obtain ⟨ke, hke⟩ := he
  obtain ⟨kb, hkb⟩ := hb
  have hi : Stmt.prettyTo (Stmt.IfThenElse c t e)
      ("if" ++ pc ++ "\x7b" ++ pt ++ "\x7d else \x7b" ++ pe ++ "\x7d") := by
    refine ⟨max kc (max kt ke) + 1, ?_⟩
    have a0 := exp_pretty_mono hkc (Nat.le_max_left kc (max kt ke))
    have a1 := stmt_pretty_mono hkt
      (le_trans (Nat.le_max_left kt ke) (Nat.le_max_right kc (max kt ke)))
    have a2 := stmt_pretty_mono hke
      (le_trans (Nat.le_max_right kt ke) (Nat.le_max_right kc (max kt ke)))
    simp only [Stmt.pretty, a0, a1, a2, Option.bind_eq_bind, Option.some_bind]
    rfl
  have hw : Stmt.prettyTo (Stmt.While c b) ("while" ++ pc ++ "\x7b" ++ pb ++ "\x7d") := by
    refine ⟨max kc kb + 1, ?_⟩
    have a0 := exp_pretty_mono hkc (Nat.le_max_left kc kb)
    have a1 := stmt_pretty_mono hkb (Nat.le_max_right kc kb)
    simp only [Stmt.pretty, a0, a1, Option.bind_eq_bind, Option.some_bind]
    rfl
  exact ⟨fun p => ⟨fun h => stmt_prettyTo_det h hi, fun h => h ▸ hi⟩,
    fun p => ⟨fun h => stmt_prettyTo_det h hw, fun h => h ▸ hw⟩⟩

/-- C18 (witness): the conditional and the loop of the counterexample. -/
theorem ifThenElse_while_pretty_witness :
    Exp.prettyTo (Exp.Lesser (Exp.Num 5) (Exp.Num 4)) "(5<4)" ∧
      Stmt.prettyTo (Stmt.Decl "x" (Exp.Bool true)) "x := true" ∧
      Stmt.prettyTo (Stmt.Decl "y" (Exp.Num 3)) "y := 3" ∧
      Stmt.prettyTo
        (Stmt.IfThenElse (Exp.Lesser (Exp.Num 5) (Exp.Num 4)) (Stmt.Decl "x" (Exp.Bool true))
          (Stmt.Decl "y" (Exp.Num 3)))
        ("if" ++ "(5<4)" ++ "\x7b" ++ "x := true" ++ "\x7d else \x7b" ++ "y := 3" ++ "\x7d") :=
  ⟨⟨2, by decide⟩, ⟨2, by decide⟩, ⟨2, by decide⟩,
    ((ifThenElse_while_pretty (Exp.Lesser (Exp.Num 5) (Exp.Num 4))
      (Stmt.Decl "x" (Exp.Bool true)) (Stmt.Decl "y" (Exp.Num 3))
      (Stmt.Decl "x" (Exp.Bool true)) "(5<4)" "x := true" "y := 3" "x := true"
      ⟨2, by decide⟩ ⟨2, by decide⟩ ⟨2, by decide⟩ ⟨2, by decide⟩).1 _).mpr rfl⟩
